import Mathlib

/-
Shallow embedding of the TinyPlanvas client-side realtime reconciliation
engine: the zustand project store (src/unnamed/part_000), the aggregation
utilities (src/src/lib/pocketbase.ts) and the realtime subscription layer
(src/src/lib/pocketbase-api.ts).

Records are modelled with String identifiers and field values; numeric
percentages are modelled as rationals (JS numbers used only through
addition and comparison in the modelled code paths); timestamps that the
code only ever compares numerically (presence last_seen) are modelled as
integer milliseconds.  JS array mutation through findIndex plus in-place
assignment or splice is modelled by the first-match combinators
updateFirst, replaceFirst and removeFirst below.
-/

namespace TinyPlanvas

-- ==================== Data model (src/src/lib/types.ts) ====================

/-- Task record: id, project_id, display_id, name, sort_order plus the
PocketBase created/updated timestamps. -/
structure Task where
  id : String
  project_id : String
  display_id : String
  name : String
  sort_order : Int
  created : String
  updated : String
deriving DecidableEq

/-- Resource record: belongs to one task. -/
structure Resource where
  id : String
  task_id : String
  name : String
  sort_order : Int
  created : String
  updated : String
deriving DecidableEq

/-- Allocation record: keyed by (resource_id, date); percentage 0-100
modelled as a rational, color_hex a string. -/
structure Allocation where
  id : String
  resource_id : String
  date : String
  percentage : Rat
  color_hex : String
  created : String
  updated : String
deriving DecidableEq

/-- Presence record; last_seen is the heartbeat timestamp, modelled as
integer milliseconds (the code parses the stored ISO string with new
Date(...).getTime() before every comparison). -/
structure Presence where
  id : String
  project_id : String
  session_id : String
  user_name : String
  user_color : String
  last_seen : Int
deriving DecidableEq

/-- Realtime event action, from the PocketBase RecordSubscription type. -/
inductive RAction where
  | create
  | update
  | delete
deriving DecidableEq

/-- Temporary-id test used all over the store: id.startsWith("temp_"),
modelled structurally on the char list (the builtin String.startsWith does
not reduce in the kernel). -/
def isTemp (id : String) : Bool :=
  ("temp_".data).isPrefixOf id.data

-- ==================== First-match list combinators ====================

/-- Model of: const i = l.findIndex(p); if (i !== -1) l[i] = f(l[i]).
Applies f to the first element satisfying p, if any. -/
def updateFirst (p : α → Bool) (f : α → α) : List α → List α
  | [] => []
  | y :: ys => if p y then f y :: ys else y :: updateFirst p f ys

/-- Model of: const i = l.findIndex(p); if (i !== -1) l[i] = x.
Replaces the first element satisfying p with x, if any. -/
def replaceFirst (p : α → Bool) (x : α) : List α → List α
  | [] => []
  | y :: ys => if p y then x :: ys else y :: replaceFirst p x ys

/-- Model of: const i = l.findIndex(p); if (i !== -1) l.splice(i, 1).
Removes the first element satisfying p, if any. -/
def removeFirst (p : α → Bool) : List α → List α
  | [] => []
  | y :: ys => if p y then ys else y :: removeFirst p ys

-- ==================== Allocation store actions (part_000) ====================

/-- setAllocation (store action, part_000 lines 611-641): if an allocation
with the (resourceId, date) key exists, update its percentage and color in
place, else push a new allocation with a fresh temporary id.  The generated
temp id and the current ISO timestamp are passed in as parameters. -/
def setAllocation (resourceId date : String) (percentage : Rat) (colorHex : String)
    (tempId now : String) (l : List Allocation) : List Allocation :=
  if l.any (fun a => a.resource_id == resourceId && a.date == date) then
    updateFirst (fun a => a.resource_id == resourceId && a.date == date)
      (fun a => { a with percentage := percentage, color_hex := colorHex }) l
  else
    l ++ [{ id := tempId, resource_id := resourceId, date := date,
            percentage := percentage, color_hex := colorHex,
            created := now, updated := now }]

/-- removeAllocation (part_000 lines 673-682): drop every allocation with
the (resourceId, date) key. -/
def removeAllocation (resourceId date : String) (l : List Allocation) : List Allocation :=
  l.filter (fun a => !(a.resource_id == resourceId && a.date == date))

/-- Success continuation of setAllocationAsync (part_000 lines 657-664):
find the allocation currently occupying the (resourceId, date) key and
replace it wholesale with the server-confirmed record. -/
def setAllocationSuccess (resourceId date : String) (saved : Allocation)
    (l : List Allocation) : List Allocation :=
  replaceFirst (fun a => a.resource_id == resourceId && a.date == date) saved l

/-- handleAllocationChange (part_000 lines 819-861), restricted to the
allocations collection it mutates.  create: push unless a record with the
same id or the same key exists, replacing a key-matching record whose id
differs; update: replace by id, falling back to replace-by-key for temp
allocations; delete: filter by id. -/
def handleAllocationChange (action : RAction) (record : Allocation)
    (l : List Allocation) : List Allocation :=
  match action with
  | .create =>
    let p := fun a => a.id == record.id ||
      (a.resource_id == record.resource_id && a.date == record.date)
    match l.find? p with
    | none => l ++ [record]
    | some ex => if ex.id == record.id then l else replaceFirst p record l
  | .update =>
    if l.any (fun a => a.id == record.id) then
      replaceFirst (fun a => a.id == record.id) record l
    else if l.any (fun a => a.resource_id == record.resource_id && a.date == record.date) then
      replaceFirst (fun a => a.resource_id == record.resource_id && a.date == record.date)
        record l
    else l
  | .delete => l.filter (fun a => a.id != record.id)

-- ==================== Project store state (part_000) ====================

/-- The mutable project-store collections plus the last-error field.  The
derived tasksWithData list is a pure function of the three collections
(recomputed by computeTasksWithData after every mutation) and is therefore
kept out of the state and computed on demand. -/
structure PState where
  tasks : List Task
  resources : List Resource
  allocations : List Allocation
  error : Option String
deriving DecidableEq

-- ==================== Task store actions (part_000) ====================

/-- Temp-record heuristic of the realtime task create dedup (part_000
lines 734-738): a temp-id record with the same project_id and name. -/
def matchesTempTask (record t : Task) : Bool :=
  isTemp t.id && t.project_id == record.project_id && t.name == record.name

/-- handleTaskChange (part_000 lines 724-774), restricted to the
collections it mutates.  create: ignore if the id is present, else replace
a matching temp record, else push; update: replace by id if present;
delete: remove the task and cascade-remove its resources and their
allocations. -/
def handleTaskChange (action : RAction) (record : Task) (s : PState) : PState :=
  match action with
  | .create =>
    if s.tasks.any (fun t => t.id == record.id) then s
    else if s.tasks.any (matchesTempTask record) then
      { s with tasks := replaceFirst (matchesTempTask record) record s.tasks }
    else { s with tasks := s.tasks ++ [record] }
  | .update =>
    { s with tasks := replaceFirst (fun t => t.id == record.id) record s.tasks }
  | .delete =>
    let resourceIds := (s.resources.filter (fun r => r.task_id == record.id)).map (·.id)
    { s with
      tasks := s.tasks.filter (fun t => t.id != record.id),
      resources := s.resources.filter (fun r => r.task_id != record.id),
      allocations := s.allocations.filter (fun a => !(resourceIds.contains a.resource_id)) }

/-- deleteTask (part_000 lines 408-428): remove the task, every resource
with task_id = id, and every allocation whose resource_id is among the ids
of those resources, in one synchronous state update. -/
def deleteTask (id : String) (s : PState) : PState :=
  let resourceIds := (s.resources.filter (fun r => r.task_id == id)).map (·.id)
  { s with
    tasks := s.tasks.filter (fun t => t.id != id),
    resources := s.resources.filter (fun r => r.task_id != id),
    allocations := s.allocations.filter (fun a => !(resourceIds.contains a.resource_id)) }

/-- Success continuation of createTaskAsync (part_000 lines 334-356): if
the temp record is still present and the confirmed id is absent, replace
the temp record in place with the server record; if both are present the
realtime handler already inserted the server record, so splice out the
temp record; otherwise do nothing. -/
def createTaskSuccess (tempId : String) (newTask : Task) (s : PState) : PState :=
  if s.tasks.any (fun t => t.id == tempId) && !(s.tasks.any (fun t => t.id == newTask.id)) then
    { s with tasks := replaceFirst (fun t => t.id == tempId) newTask s.tasks }
  else if s.tasks.any (fun t => t.id == tempId) && s.tasks.any (fun t => t.id == newTask.id) then
    { s with tasks := removeFirst (fun t => t.id == tempId) s.tasks }
  else s

-- ==================== Resource store actions (part_000) ====================

/-- Temp-record heuristic of the realtime resource create dedup (part_000
lines 786-790): a temp-id record with the same task_id and name. -/
def matchesTempResource (record r : Resource) : Bool :=
  isTemp r.id && r.task_id == record.task_id && r.name == record.name

/-- handleResourceChange (part_000 lines 776-817), restricted to the
collections it mutates.  create: ignore if the id is present, else replace
a matching temp record, else push; update: replace by id if present;
delete: remove the resource and cascade-remove its allocations. -/
def handleResourceChange (action : RAction) (record : Resource) (s : PState) : PState :=
  match action with
  | .create =>
    if s.resources.any (fun r => r.id == record.id) then s
    else if s.resources.any (matchesTempResource record) then
      { s with resources := replaceFirst (matchesTempResource record) record s.resources }
    else { s with resources := s.resources ++ [record] }
  | .update =>
    { s with resources := replaceFirst (fun r => r.id == record.id) record s.resources }
  | .delete =>
    { s with
      resources := s.resources.filter (fun r => r.id != record.id),
      allocations := s.allocations.filter (fun a => a.resource_id != record.id) }

/-- Success continuation of createResourceAsync (part_000 lines 497-518),
mirroring createTaskSuccess for the resources collection. -/
def createResourceSuccess (tempId : String) (newResource : Resource) (s : PState) : PState :=
  if s.resources.any (fun r => r.id == tempId)
      && !(s.resources.any (fun r => r.id == newResource.id)) then
    { s with resources := replaceFirst (fun r => r.id == tempId) newResource s.resources }
  else if s.resources.any (fun r => r.id == tempId)
      && s.resources.any (fun r => r.id == newResource.id) then
    { s with resources := removeFirst (fun r => r.id == tempId) s.resources }
  else s

-- ==================== Optimistic field updates (part_000) ====================

/-- The Partial update object accepted by updateTask / updateTaskAsync.
Every Task field may be present; absent fields are left untouched by the
Object.assign in updateTask. -/
structure TaskUpdates where
  id : Option String
  project_id : Option String
  display_id : Option String
  name : Option String
  sort_order : Option Int
  created : Option String
  updated : Option String
deriving DecidableEq

/-- Object.assign(task, updates): overwrite exactly the present fields. -/
def applyTaskUpdates (u : TaskUpdates) (t : Task) : Task :=
  { id := u.id.getD t.id,
    project_id := u.project_id.getD t.project_id,
    display_id := u.display_id.getD t.display_id,
    name := u.name.getD t.name,
    sort_order := u.sort_order.getD t.sort_order,
    created := u.created.getD t.created,
    updated := u.updated.getD t.updated }

/-- A full task viewed as an update object; the rollback path of
updateTaskAsync passes the saved original record (all fields) back into
updateTask. -/
def taskAsUpdates (t : Task) : TaskUpdates :=
  ⟨some t.id, some t.project_id, some t.display_id, some t.name,
   some t.sort_order, some t.created, some t.updated⟩

/-- updateTask (part_000 lines 374-384): Object.assign the updates onto
the first task with the given id, if present. -/
def updateTask (id : String) (u : TaskUpdates) (s : PState) : PState :=
  { s with tasks := updateFirst (fun t => t.id == id) (applyTaskUpdates u) s.tasks }

/-- updateTaskAsync with a failing remote call (part_000 lines 386-406):
skip temp ids entirely; otherwise save the original record, apply the
optimistic update, then on failure re-apply the original record through
updateTask and set the error message. -/
def updateTaskAsyncFailed (id : String) (u : TaskUpdates) (msg : String)
    (s : PState) : PState :=
  if isTemp id then s
  else
    let originalTask := s.tasks.find? (fun t => t.id == id)
    let s1 := updateTask id u s
    let s2 := match originalTask with
      | some orig => updateTask id (taskAsUpdates orig) s1
      | none => s1
    { s2 with error := some msg }

/-- The Partial update object accepted by updateResource. -/
structure ResourceUpdates where
  id : Option String
  task_id : Option String
  name : Option String
  sort_order : Option Int
  created : Option String
  updated : Option String
deriving DecidableEq

/-- Object.assign(resource, updates): overwrite exactly the present
fields. -/
def applyResourceUpdates (u : ResourceUpdates) (r : Resource) : Resource :=
  { id := u.id.getD r.id,
    task_id := u.task_id.getD r.task_id,
    name := u.name.getD r.name,
    sort_order := u.sort_order.getD r.sort_order,
    created := u.created.getD r.created,
    updated := u.updated.getD r.updated }

/-- A full resource viewed as an update object, for the rollback path. -/
def resourceAsUpdates (r : Resource) : ResourceUpdates :=
  ⟨some r.id, some r.task_id, some r.name, some r.sort_order,
   some r.created, some r.updated⟩

/-- updateResource (part_000 lines 535-545). -/
def updateResource (id : String) (u : ResourceUpdates) (s : PState) : PState :=
  { s with resources := updateFirst (fun r => r.id == id) (applyResourceUpdates u) s.resources }

/-- updateResourceAsync with a failing remote call (part_000 lines
547-564), mirroring updateTaskAsyncFailed. -/
def updateResourceAsyncFailed (id : String) (u : ResourceUpdates) (msg : String)
    (s : PState) : PState :=
  if isTemp id then s
  else
    let originalResource := s.resources.find? (fun r => r.id == id)
    let s1 := updateResource id u s
    let s2 := match originalResource with
      | some orig => updateResource id (resourceAsUpdates orig) s1
      | none => s1
    { s2 with error := some msg }

-- ==================== Presence (part_000) ====================

/-- handlePresenceChange (part_000 lines 863-889): events for the own
session are ignored; create pushes unless the session is already listed;
update replaces by session id, pushing newly joined users; delete filters
by record id.  No staleness filtering happens here. -/
def handlePresenceChange (action : RAction) (record : Presence) (sessionId : String)
    (plist : List Presence) : List Presence :=
  if record.session_id == sessionId then plist
  else match action with
  | .create =>
    if plist.any (fun p => p.session_id == record.session_id) then plist
    else plist ++ [record]
  | .update =>
    if plist.any (fun p => p.session_id == record.session_id) then
      replaceFirst (fun p => p.session_id == record.session_id) record plist
    else plist ++ [record]
  | .delete => plist.filter (fun p => p.id != record.id)

/-- Stale-presence cleanup run on each 10-second heartbeat tick (part_000
lines 999-1006): keep only records with last_seen strictly newer than
thirty seconds before now. -/
def heartbeatCleanup (now : Int) (plist : List Presence) : List Presence :=
  plist.filter (fun p => decide (now - 30000 < p.last_seen))

/-- getOtherUsers (part_000 lines 1041-1044): every presence record except
the own session; no staleness filter is applied here. -/
def getOtherUsers (sessionId : String) (plist : List Presence) : List Presence :=
  plist.filter (fun p => p.session_id != sessionId)

-- ==================== Aggregation (src/src/lib/pocketbase.ts) ====================

/-- JS string comparison a < b: lexicographic on the code units.  Modelled
structurally on the char lists so the kernel can evaluate it (the builtin
String order is defined by well-founded recursion and does not reduce). -/
def charListLt : List Char → List Char → Bool
  | _, [] => false
  | [], _ :: _ => true
  | c :: cs, d :: ds =>
    if c.toNat < d.toNat then true
    else if d.toNat < c.toNat then false
    else charListLt cs ds

/-- JS a < b on date strings. -/
def dateLt (a b : String) : Bool :=
  charListLt a.data b.data

/-- Per-resource slot map built by buildAllocationMap: a JS Map from date
key to allocation, with Map.set semantics (overwrite in place if the key
is present, else append). -/
def mapSet (k : String) (v : Allocation) :
    List (String × Allocation) → List (String × Allocation)
  | [] => [(k, v)]
  | (k2, v2) :: rest => if k2 == k then (k, v) :: rest else (k2, v2) :: mapSet k v rest

/-- buildAllocationMap (pocketbase.ts lines 262-268): fold Map.set over
the allocations keyed by date. -/
def buildAllocationMap (allocations : List Allocation) : List (String × Allocation) :=
  allocations.foldl (fun m a => mapSet a.date a m) []

/-- A resource together with its allocations and the derived slot map
(types.ts ResourceWithAllocations). -/
structure ResourceWithAllocations where
  resource : Resource
  allocations : List Allocation
  allocationMap : List (String × Allocation)
deriving DecidableEq

/-- The derived per-task aggregation record (types.ts
TaskWithAggregation.computed). -/
structure TaskComputed where
  startDate : Option String
  endDate : Option String
  totalEffort : Rat
deriving DecidableEq

/-- Earliest-date accumulator step of the aggregation loop: take the new
date when no date has been seen yet or the new date is strictly
earlier. -/
def minStep (o : Option String) (a : Allocation) : Option String :=
  match o with
  | none => some a.date
  | some e => if dateLt a.date e then some a.date else some e

/-- Latest-date accumulator step: take the new date when none has been
seen or the new date is strictly later. -/
def maxStep (o : Option String) (a : Allocation) : Option String :=
  match o with
  | none => some a.date
  | some m => if dateLt m a.date then some a.date else some m

/-- One iteration of the computeTaskAggregation loop body over a single
allocation: update earliest date, latest date and the running effort
sum. -/
def aggStep (acc : Option String × Option String × Rat) (a : Allocation) :
    Option String × Option String × Rat :=
  (minStep acc.1 a, maxStep acc.2.1 a, acc.2.2 + a.percentage)

/-- computeTaskAggregation (pocketbase.ts lines 222-257): empty resource
list short-circuits to nulls and zero; otherwise fold the loop body over
every allocation of every resource, in order. -/
def computeTaskAggregation (resources : List ResourceWithAllocations) : TaskComputed :=
  if resources.isEmpty then ⟨none, none, 0⟩
  else
    let r := (resources.flatMap (·.allocations)).foldl aggStep (none, none, 0)
    ⟨r.1, r.2.1, r.2.2⟩

/-- A task with its resources-with-allocations and derived aggregation
(types.ts TaskWithAggregation). -/
structure TaskWithAggregation where
  task : Task
  resources : List ResourceWithAllocations
  computed : TaskComputed
deriving DecidableEq

/-- computeTasksWithData (part_000 lines 208-236): per task, gather its
resources, attach each resource's allocations and slot map, compute the
aggregation, and stable-sort the rows by sort_order. -/
def computeTasksWithData (tasks : List Task) (resources : List Resource)
    (allocations : List Allocation) : List TaskWithAggregation :=
  (tasks.map (fun task =>
    let taskResources := resources.filter (fun r => r.task_id == task.id)
    let rwa : List ResourceWithAllocations := taskResources.map (fun r =>
      let ra := allocations.filter (fun a => a.resource_id == r.id)
      ⟨r, ra, buildAllocationMap ra⟩)
    ⟨task, rwa, computeTaskAggregation rwa⟩)).mergeSort
    (fun a b => decide (a.task.sort_order ≤ b.task.sort_order))

-- ========== Realtime subscription (src/src/lib/pocketbase-api.ts) ==========

/-- A task change event as delivered by the tasks subscription. -/
structure TEvent where
  action : RAction
  record : Task
deriving DecidableEq

/-- A resource change event. -/
structure REvent where
  action : RAction
  record : Resource
deriving DecidableEq

/-- An allocation change event. -/
structure AEvent where
  action : RAction
  record : Allocation
deriving DecidableEq

/-- JS Set.add: append the id unless it is already present. -/
def addId (x : String) (l : List String) : List String :=
  if l.contains x then l else l ++ [x]

/-- JS Set.delete. -/
def removeId (x : String) (l : List String) : List String :=
  l.filter (fun y => y != x)

/-- The mutable state captured by subscribeToProjectChanges (pocketbase-api.ts
lines 439-575): the task and resource membership sets, the two pending-event
queues, and — modelling the invocation of the onTaskChange / onResourceChange /
onAllocationChange callbacks — the lists of events delivered so far, in call
order. -/
structure SubState where
  taskIds : List String
  resourceIds : List String
  pendingResources : List REvent
  pendingAllocations : List AEvent
  deliveredTasks : List TEvent
  deliveredResources : List REvent
  deliveredAllocations : List AEvent
deriving DecidableEq

/-- The loop body of processPendingResources (pocketbase-api.ts lines
464-474): deliver the queued event when its task_id is now known,
maintaining the resource id set; an event whose parent is still unknown is
discarded. -/
def pendingResourceStep (s : SubState) (e : REvent) : SubState :=
  if s.taskIds.contains e.record.task_id then
    let s := { s with deliveredResources := s.deliveredResources ++ [e] }
    match e.action with
    | .create => { s with resourceIds := addId e.record.id s.resourceIds }
    | .delete => { s with resourceIds := removeId e.record.id s.resourceIds }
    | .update => s
  else s

/-- processPendingResources (pocketbase-api.ts lines 460-475): snapshot
the queued resource events, clear the queue, and run the loop body over
the snapshot. -/
def processPendingResources (s : SubState) : SubState :=
  s.pendingResources.foldl pendingResourceStep { s with pendingResources := [] }

/-- The loop body of processPendingAllocations (pocketbase-api.ts lines
482-486). -/
def pendingAllocationStep (s : SubState) (e : AEvent) : SubState :=
  if s.resourceIds.contains e.record.resource_id then
    { s with deliveredAllocations := s.deliveredAllocations ++ [e] }
  else s

/-- processPendingAllocations (pocketbase-api.ts lines 478-487): same
flush for the allocation queue against the resource id set. -/
def processPendingAllocations (s : SubState) : SubState :=
  s.pendingAllocations.foldl pendingAllocationStep { s with pendingAllocations := [] }

/-- The tasks subscription handler (pocketbase-api.ts lines 494-506):
events of other projects are ignored; a matching event is delivered, and a
create grows the task id set and flushes the pending resource queue. -/
def taskEvent (projectId : String) (e : TEvent) (s : SubState) : SubState :=
  if e.record.project_id == projectId then
    let s := { s with deliveredTasks := s.deliveredTasks ++ [e] }
    match e.action with
    | .create => processPendingResources { s with taskIds := addId e.record.id s.taskIds }
    | .delete => { s with taskIds := removeId e.record.id s.taskIds }
    | .update => s
  else s

/-- The resources subscription handler (pocketbase-api.ts lines 509-525):
a resource event with a known task_id is delivered (a create grows the
resource id set and flushes the pending allocation queue); a create with
an unknown task_id is queued, with a 100 ms retry timer whose firing is
modelled as a separate flushResources step; other unknown-parent events
are dropped. -/
def resourceEvent (e : REvent) (s : SubState) : SubState :=
  if s.taskIds.contains e.record.task_id then
    let s := { s with deliveredResources := s.deliveredResources ++ [e] }
    match e.action with
    | .create => processPendingAllocations { s with resourceIds := addId e.record.id s.resourceIds }
    | .delete => { s with resourceIds := removeId e.record.id s.resourceIds }
    | .update => s
  else if e.action == .create then
    { s with pendingResources := s.pendingResources ++ [e] }
  else s

/-- The allocations subscription handler (pocketbase-api.ts lines
528-537): deliver when the resource_id is known; queue creates and
updates with an unknown resource_id (with a retry timer modelled as
flushAllocations); drop unknown deletes. -/
def allocEvent (e : AEvent) (s : SubState) : SubState :=
  if s.resourceIds.contains e.record.resource_id then
    { s with deliveredAllocations := s.deliveredAllocations ++ [e] }
  else if e.action == .create || e.action == .update then
    { s with pendingAllocations := s.pendingAllocations ++ [e] }
  else s

/-- updateTaskIds (pocketbase-api.ts lines 569-572): replace the task id
set and flush the pending resource queue. -/
def updateTaskIds (ids : List String) (s : SubState) : SubState :=
  processPendingResources { s with taskIds := ids }

/-- updateResourceIds (pocketbase-api.ts lines 565-568). -/
def updateResourceIds (ids : List String) (s : SubState) : SubState :=
  processPendingAllocations { s with resourceIds := ids }

/-- One scheduled callback of the subscription layer: an incoming event on
one of the three streams, a 100 ms retry timer firing, or a membership
refresh from the store. -/
inductive SubStep where
  | tEvent (e : TEvent)
  | rEvent (e : REvent)
  | aEvent (e : AEvent)
  | flushResources
  | flushAllocations
  | updTaskIds (ids : List String)
  | updResourceIds (ids : List String)
deriving DecidableEq

/-- Interleaving semantics: apply one scheduled callback. -/
def applySubStep (projectId : String) : SubStep → SubState → SubState
  | .tEvent e, s => taskEvent projectId e s
  | .rEvent e, s => resourceEvent e s
  | .aEvent e, s => allocEvent e s
  | .flushResources, s => processPendingResources s
  | .flushAllocations, s => processPendingAllocations s
  | .updTaskIds ids, s => updateTaskIds ids s
  | .updResourceIds ids, s => updateResourceIds ids s

/-- Apply a sequence of scheduled callbacks in order. -/
def applySubSteps (projectId : String) (steps : List SubStep) (s : SubState) : SubState :=
  steps.foldl (fun s st => applySubStep projectId st s) s

-- ==================== Lemmas about the first-match combinators ====================

theorem updateFirst_eq_self {α : Type} {p : α → Bool} {f : α → α} :
    ∀ {l : List α}, (∀ a ∈ l, p a = false) → updateFirst p f l = l
  | [], _ => rfl
  | y :: ys, h => by
    have hy : p y = false := h y (List.mem_cons_self y ys)
    simp only [updateFirst, hy, if_neg Bool.false_ne_true, cond_eq_if, Bool.false_eq_true,
      if_false]
    exact congrArg (y :: ·) (updateFirst_eq_self fun a ha => h a (List.mem_cons_of_mem y ha))

theorem replaceFirst_eq_self {α : Type} {p : α → Bool} {x : α} :
    ∀ {l : List α}, (∀ a ∈ l, p a = false) → replaceFirst p x l = l
  | [], _ => rfl
  | y :: ys, h => by
    have hy : p y = false := h y (List.mem_cons_self y ys)
    simp only [replaceFirst, hy, Bool.false_eq_true, if_false]
    exact congrArg (y :: ·) (replaceFirst_eq_self fun a ha => h a (List.mem_cons_of_mem y ha))

theorem replaceFirst_idem {α : Type} {p : α → Bool} {x : α} (hx : p x = true) :
    ∀ l : List α, replaceFirst p x (replaceFirst p x l) = replaceFirst p x l
  | [] => rfl
  | y :: ys => by
    by_cases hy : p y = true
    · simp only [replaceFirst, hy, if_true, hx]
    · simp only [replaceFirst, hy, Bool.false_eq_true, if_false, replaceFirst_idem hx ys]

theorem mem_replaceFirst_self {α : Type} {p : α → Bool} {x : α} :
    ∀ {l : List α}, l.any p = true → x ∈ replaceFirst p x l
  | y :: ys, h => by
    by_cases hy : p y = true
    · simp [replaceFirst, hy]
    · have h2 : ys.any p = true := by
        simp only [List.any_cons, eq_false_of_ne_true hy, Bool.false_or] at h
        exact h
      simp only [replaceFirst, hy, Bool.false_eq_true, if_false]
      exact List.mem_cons_of_mem y (mem_replaceFirst_self h2)

theorem countP_replaceFirst {α : Type} {p q : α → Bool} {x ex : α} :
    ∀ {l : List α}, l.find? p = some ex →
      (replaceFirst p x l).countP q + (if q ex then 1 else 0)
        = l.countP q + (if q x then 1 else 0)
  | y :: ys, h => by
    by_cases hy : p y = true
    · have hex : ex = y := by
        rw [List.find?_cons_of_pos _ hy] at h
        exact (Option.some_injective _ h).symm
      subst hex
      simp only [replaceFirst, hy, if_true, List.countP_cons]
      omega
    · have hfind : ys.find? p = some ex := by
        rwa [List.find?_cons_of_neg _ (by simpa using hy)] at h
      simp only [replaceFirst, hy, Bool.false_eq_true, if_false, List.countP_cons]
      have ih := countP_replaceFirst (x := x) (q := q) hfind
      omega

theorem countP_updateFirst {α : Type} {p q : α → Bool} {f : α → α}
    (hf : ∀ a, q (f a) = q a) :
    ∀ l : List α, (updateFirst p f l).countP q = l.countP q
  | [] => rfl
  | y :: ys => by
    by_cases hy : p y = true
    · simp only [updateFirst, hy, if_true, List.countP_cons, hf]
    · simp only [updateFirst, hy, Bool.false_eq_true, if_false, List.countP_cons,
        countP_updateFirst hf ys]

theorem replaceFirst_append_decomp {α : Type} {p : α → Bool} {x old : α} {l2 : List α}
    (hold : p old = true) :
    ∀ {l1 : List α}, (∀ a ∈ l1, p a = false) →
      replaceFirst p x (l1 ++ old :: l2) = l1 ++ x :: l2
  | [], _ => by simp [replaceFirst, hold]
  | y :: ys, h => by
    have hy : p y = false := h y (List.mem_cons_self y ys)
    simp only [List.cons_append, replaceFirst, hy, Bool.false_eq_true, if_false]
    exact congrArg (y :: ·)
      (replaceFirst_append_decomp hold fun a ha => h a (List.mem_cons_of_mem y ha))

theorem any_iff_countP_pos {α : Type} {p : α → Bool} {l : List α} :
    l.any p = true ↔ 0 < l.countP p := by
  rw [List.any_eq_true, List.countP_pos_iff]

theorem any_eq_false_iff_countP_zero {α : Type} {p : α → Bool} {l : List α} :
    l.any p = false ↔ l.countP p = 0 := by
  rw [List.countP_eq_zero, ← Bool.not_eq_true, List.any_eq_true]
  push_neg
  simp

-- ==================== C6: upsert idempotence ====================

theorem handleTaskChange_idem (action : RAction) (record : Task) (s : PState) :
    handleTaskChange action record (handleTaskChange action record s)
      = handleTaskChange action record s := by
  cases action with
  | create =>
    by_cases hid : s.tasks.any (fun t => t.id == record.id) = true
    · simp only [handleTaskChange, hid, if_true]
    · by_cases htm : s.tasks.any (matchesTempTask record) = true
      · have hmem : record ∈ replaceFirst (matchesTempTask record) record s.tasks :=
          mem_replaceFirst_self htm
        have hany : (replaceFirst (matchesTempTask record) record s.tasks).any
            (fun t => t.id == record.id) = true :=
          List.any_eq_true.mpr ⟨record, hmem, by simp⟩
        simp only [handleTaskChange, hid, htm, if_true, Bool.false_eq_true, if_false, hany]
      · have hany : (s.tasks ++ [record]).any (fun t => t.id == record.id) = true :=
          List.any_eq_true.mpr ⟨record, by simp, by simp⟩
        simp only [handleTaskChange, hid, htm, Bool.false_eq_true, if_false, hany, if_true]
  | update =>
    simp only [handleTaskChange]
    rw [replaceFirst_idem (by simp)]
  | delete =>
    have hnil : (List.filter (fun r => r.task_id == record.id)
        (List.filter (fun r => r.task_id != record.id) s.resources)) = [] := by
      rw [List.filter_filter]
      refine List.filter_eq_nil_iff.mpr ?_
      intro r hr
      by_cases h : r.task_id == record.id
      · have he := eq_of_beq h
        simp [he]
      · simp [h]
    simp only [handleTaskChange, hnil, List.map_nil, List.filter_filter]
    congr 1 <;> simp [Bool.and_self]

theorem handleResourceChange_idem (action : RAction) (record : Resource) (s : PState) :
    handleResourceChange action record (handleResourceChange action record s)
      = handleResourceChange action record s := by
  cases action with
  | create =>
    by_cases hid : s.resources.any (fun r => r.id == record.id) = true
    · simp only [handleResourceChange, hid, if_true]
    · by_cases htm : s.resources.any (matchesTempResource record) = true
      · have hmem : record ∈ replaceFirst (matchesTempResource record) record s.resources :=
          mem_replaceFirst_self htm
        have hany : (replaceFirst (matchesTempResource record) record s.resources).any
            (fun r => r.id == record.id) = true :=
          List.any_eq_true.mpr ⟨record, hmem, by simp⟩
        simp only [handleResourceChange, hid, htm, if_true, Bool.false_eq_true, if_false, hany]
      · have hany : (s.resources ++ [record]).any (fun r => r.id == record.id) = true :=
          List.any_eq_true.mpr ⟨record, by simp, by simp⟩
        simp only [handleResourceChange, hid, htm, Bool.false_eq_true, if_false, hany, if_true]
  | update =>
    simp only [handleResourceChange]
    rw [replaceFirst_idem (by simp)]
  | delete =>
    simp only [handleResourceChange]
    congr 1
    · rw [List.filter_filter]
      simp
    · rw [List.filter_filter]
      simp

/-- C6: applying the identical record twice through the realtime merge
path (handleTaskChange / handleResourceChange, any action, in particular
the create and update upsert branches) leaves the project store — tasks,
resources, allocations and error field — in exactly the state obtained by
applying it once; the derived tasksWithData is a pure function
(computeTasksWithData) of these collections, so it coincides as well. -/
theorem upsert_idempotent :
    (∀ (action : RAction) (record : Task) (s : PState),
      handleTaskChange action record (handleTaskChange action record s)
        = handleTaskChange action record s) ∧
    (∀ (action : RAction) (record : Resource) (s : PState),
      handleResourceChange action record (handleResourceChange action record s)
        = handleResourceChange action record s) :=
  ⟨handleTaskChange_idem, handleResourceChange_idem⟩

-- ==================== C2: allocation key uniqueness ====================

/-- Number of allocations in the collection carrying the (resource, date)
key. -/
def allocKeyCount (r d : String) (l : List Allocation) : Nat :=
  l.countP (fun a => a.resource_id == r && a.date == d)

/-- The uniqueness invariant claimed in the spec: at most one allocation
per (resource, date-bucket) key. -/
def AllocUnique (l : List Allocation) : Prop :=
  ∀ r d, allocKeyCount r d l ≤ 1

/-- The operations the claim quantifies over: an optimistic paint
(setAllocation), an erase (removeAllocation), a setAllocationAsync
completion (its success continuation, with the server record) and a
realtime allocation event (handleAllocationChange). -/
inductive AllocOp where
  | paint (resourceId date : String) (percentage : Rat) (colorHex : String) (tempId now : String)
  | erase (resourceId date : String)
  | confirm (resourceId date : String) (saved : Allocation)
  | event (action : RAction) (record : Allocation)
deriving DecidableEq

/-- Apply one operation to the allocations collection. -/
def applyAllocOp : AllocOp → List Allocation → List Allocation
  | .paint r d p c t n, l => setAllocation r d p c t n l
  | .erase r d, l => removeAllocation r d l
  | .confirm r d saved, l => setAllocationSuccess r d saved l
  | .event act rec, l => handleAllocationChange act rec l

/-- Apply a sequence of operations in order. -/
def applyAllocOps (ops : List AllocOp) (l : List Allocation) : List Allocation :=
  ops.foldl (fun l op => applyAllocOp op l) l

/-- Server-consistency side condition forced by the counterexample below:
a completion carries the key it was issued for, and an update event does
not re-key the allocation the store holds under its id.  All other
operations are unconstrained. -/
def allocOpOk : AllocOp → List Allocation → Bool
  | .confirm r d saved, _ => saved.resource_id == r && saved.date == d
  | .event .update rec, l =>
    l.all (fun a => a.id != rec.id ||
      (a.resource_id == rec.resource_id && a.date == rec.date))
  | _, _ => true

/-- Every operation of the sequence satisfies its side condition in the
state it is applied to. -/
def allocOpsOk : List AllocOp → List Allocation → Bool
  | [], _ => true
  | op :: ops, l => allocOpOk op l && allocOpsOk ops (applyAllocOp op l)

theorem allocKeyCount_setAllocation {l : List Allocation} {r d : String}
    (rid date : String) (p : Rat) (c t n : String)
    (h : allocKeyCount r d l ≤ 1) :
    allocKeyCount r d (setAllocation rid date p c t n l) ≤ 1 := by
  unfold setAllocation
  by_cases hany : l.any (fun a => a.resource_id == rid && a.date == date) = true
  · rw [if_pos hany]
    unfold allocKeyCount at h ⊢
    have heq := countP_updateFirst
      (p := fun a => a.resource_id == rid && a.date == date)
      (q := fun a => a.resource_id == r && a.date == d)
      (f := fun a => { a with percentage := p, color_hex := c })
      (fun a => rfl) l
    rw [heq]
    exact h
  · rw [if_neg hany]
    unfold allocKeyCount at h ⊢
    rw [List.countP_append]
    by_cases hq : ((rid == r) && (date == d)) = true
    · have hr : rid = r := eq_of_beq (Bool.and_elim_left hq)
      have hd : date = d := eq_of_beq (Bool.and_elim_right hq)
      subst hr hd
      have hzero : l.countP (fun a => a.resource_id == rid && a.date == date) = 0 :=
        any_eq_false_iff_countP_zero.mp (Bool.not_eq_true _ ▸ eq_false_of_ne_true hany)
      simp [List.countP_cons, hzero, hq]
    · simp [List.countP_cons, hq]
      omega

theorem allocKeyCount_removeAllocation {l : List Allocation} {r d : String}
    (rid date : String) (h : allocKeyCount r d l ≤ 1) :
    allocKeyCount r d (removeAllocation rid date l) ≤ 1 := by
  unfold removeAllocation allocKeyCount at *
  calc List.countP _ (List.filter _ l) ≤ l.countP _ := by
        rw [List.countP_filter]
        exact List.countP_mono_left (fun a _ hpa => Bool.and_elim_left hpa)
    _ ≤ 1 := h

theorem allocKeyCount_setAllocationSuccess {l : List Allocation} {r d : String}
    {rid date : String} {saved : Allocation}
    (hrid : saved.resource_id = rid) (hdate : saved.date = date)
    (h : allocKeyCount r d l ≤ 1) :
    allocKeyCount r d (setAllocationSuccess rid date saved l) ≤ 1 := by
  unfold setAllocationSuccess
  by_cases hany : l.any (fun a => a.resource_id == rid && a.date == date) = true
  · obtain ⟨ex, hfind⟩ := by
      have := List.find?_isSome.mpr (List.any_eq_true.mp hany)
      exact Option.isSome_iff_exists.mp this
    have hex := List.find?_some hfind
    have hexr : ex.resource_id = rid := eq_of_beq (Bool.and_elim_left hex)
    have hexd : ex.date = date := eq_of_beq (Bool.and_elim_right hex)
    have hq : (fun a => a.resource_id == r && a.date == d) ex
        = (fun a => a.resource_id == r && a.date == d) saved := by
      simp only [hexr, hexd, hrid, hdate]
    have := countP_replaceFirst (x := saved)
      (q := fun a => a.resource_id == r && a.date == d) hfind
    unfold allocKeyCount at h ⊢
    rw [hq] at this
    omega
  · rw [replaceFirst_eq_self (fun a ha => by
      have := List.any_eq_false.mp (eq_false_of_ne_true hany) a ha
      simpa using this)]
    exact h

theorem allocKeyCount_handleAllocationChange {l : List Allocation} {r d : String}
    (act : RAction) (rec : Allocation)
    (hok : allocOpOk (.event act rec) l = true)
    (h : allocKeyCount r d l ≤ 1) :
    allocKeyCount r d (handleAllocationChange act rec l) ≤ 1 := by
  cases act with
  | create =>
    simp only [handleAllocationChange]
    cases hfind : l.find? (fun a => a.id == rec.id ||
        (a.resource_id == rec.resource_id && a.date == rec.date)) with
    | none =>
      have hall := List.find?_eq_none.mp hfind
      unfold allocKeyCount at h ⊢
      rw [List.countP_append]
      by_cases hq : ((rec.resource_id == r) && (rec.date == d)) = true
      · have hr : rec.resource_id = r := eq_of_beq (Bool.and_elim_left hq)
        have hd : rec.date = d := eq_of_beq (Bool.and_elim_right hq)
        have hzero : l.countP (fun a => a.resource_id == r && a.date == d) = 0 := by
          rw [List.countP_eq_zero]
          intro a ha hpa
          have := hall a ha
          rw [← hr, ← hd] at hpa
          simp [hpa] at this
        simp [List.countP_cons, hzero, hq]
      · simp [List.countP_cons, hq]
        omega
    | some ex =>
      dsimp only
      by_cases hid : (ex.id == rec.id) = true
      · rw [if_pos hid]
        exact h
      · rw [if_neg hid]
        have hex := List.find?_some hfind
        rw [eq_false_of_ne_true hid] at hex
        simp only [Bool.false_or] at hex
        have hexr : ex.resource_id = rec.resource_id := eq_of_beq (Bool.and_elim_left hex)
        have hexd : ex.date = rec.date := eq_of_beq (Bool.and_elim_right hex)
        have hq : (fun a => a.resource_id == r && a.date == d) ex
            = (fun a => a.resource_id == r && a.date == d) rec := by
          simp only [hexr, hexd]
        have := countP_replaceFirst (x := rec)
          (q := fun a => a.resource_id == r && a.date == d) hfind
        unfold allocKeyCount at h ⊢
        rw [hq] at this
        omega
  | update =>
    simp only [allocOpOk] at hok
    simp only [handleAllocationChange]
    by_cases hany : l.any (fun a => a.id == rec.id) = true
    · rw [if_pos hany]
      obtain ⟨ex, hfind⟩ := by
        have := List.find?_isSome.mpr (List.any_eq_true.mp hany)
        exact Option.isSome_iff_exists.mp this
      have hpx := List.find?_some hfind
      have hexid : ex.id = rec.id := eq_of_beq hpx
      have hexmem := List.mem_of_find?_eq_some hfind
      have hkey := List.all_eq_true.mp hok ex hexmem
      rw [hexid] at hkey
      simp only [bne_self_eq_false, Bool.false_or] at hkey
      have hexr : ex.resource_id = rec.resource_id := eq_of_beq (Bool.and_elim_left hkey)
      have hexd : ex.date = rec.date := eq_of_beq (Bool.and_elim_right hkey)
      have hq : (fun a => a.resource_id == r && a.date == d) ex
          = (fun a => a.resource_id == r && a.date == d) rec := by
        simp only [hexr, hexd]
      have := countP_replaceFirst (x := rec)
        (q := fun a => a.resource_id == r && a.date == d) hfind
      unfold allocKeyCount at h ⊢
      rw [hq] at this
      omega
    · rw [if_neg hany]
      by_cases hany2 : l.any (fun a => a.resource_id == rec.resource_id
          && a.date == rec.date) = true
      · rw [if_pos hany2]
        obtain ⟨ex, hfind⟩ := by
          have := List.find?_isSome.mpr (List.any_eq_true.mp hany2)
          exact Option.isSome_iff_exists.mp this
        have hex := List.find?_some hfind
        have hexr : ex.resource_id = rec.resource_id := eq_of_beq (Bool.and_elim_left hex)
        have hexd : ex.date = rec.date := eq_of_beq (Bool.and_elim_right hex)
        have hq : (fun a => a.resource_id == r && a.date == d) ex
            = (fun a => a.resource_id == r && a.date == d) rec := by
          simp only [hexr, hexd]
        have := countP_replaceFirst (x := rec)
          (q := fun a => a.resource_id == r && a.date == d) hfind
        unfold allocKeyCount at h ⊢
        rw [hq] at this
        omega
      · rw [if_neg hany2]
        exact h
  | delete =>
    simp only [handleAllocationChange]
    unfold allocKeyCount at h ⊢
    calc List.countP _ (List.filter _ l) ≤ l.countP _ := by
          rw [List.countP_filter]
          exact List.countP_mono_left (fun a _ hpa => Bool.and_elim_left hpa)
      _ ≤ 1 := h

theorem allocUnique_applyAllocOp {l : List Allocation} {op : AllocOp}
    (hok : allocOpOk op l = true) (h : AllocUnique l) :
    AllocUnique (applyAllocOp op l) := by
  intro r d
  cases op with
  | paint rid date p c t n => exact allocKeyCount_setAllocation rid date p c t n (h r d)
  | erase rid date => exact allocKeyCount_removeAllocation rid date (h r d)
  | confirm rid date saved =>
    simp only [allocOpOk] at hok
    exact allocKeyCount_setAllocationSuccess
      (eq_of_beq (Bool.and_elim_left hok)) (eq_of_beq (Bool.and_elim_right hok)) (h r d)
  | event act rec => exact allocKeyCount_handleAllocationChange act rec hok (h r d)

/-- C2 (amended): after any sequence of setAllocation, removeAllocation,
setAllocationAsync completions and handleAllocationChange events, at most
one allocation exists per (resource_id, date) key — provided every
completion carries the key it was issued for and no update event re-keys
the allocation stored under its id (allocOpsOk), which is what the
upsert-by-key server guarantees.  The unrestricted claim fails: see the
counterexample. -/
theorem allocation_key_unique (ops : List AllocOp) (l : List Allocation)
    (hok : allocOpsOk ops l = true) (h : AllocUnique l) :
    AllocUnique (applyAllocOps ops l) := by
  induction ops generalizing l with
  | nil => exact h
  | cons op ops ih =>
    simp only [allocOpsOk, Bool.and_eq_true] at hok
    exact ih (applyAllocOp op l) hok.2 (allocUnique_applyAllocOp hok.1 h)

/-- Witness for C2: a concrete paint / event / erase / completion sequence
starting from the empty collection keeps the key unique. -/
theorem allocation_key_unique_witness :
    AllocUnique (applyAllocOps
      [ .paint "r1" "2024-01-01" 50 "#30A14E" "temp_1" "now",
        .event .create ⟨"srv1", "r1", "2024-01-01", 50, "#30A14E", "", ""⟩,
        .confirm "r1" "2024-01-01" ⟨"srv1", "r1", "2024-01-01", 50, "#30A14E", "", ""⟩,
        .erase "r1" "2024-01-01" ] []) :=
  allocation_key_unique _ _ (by decide)
    (fun r d => by simp [allocKeyCount, applyAllocOps])

/-- Counterexample for C2 as frozen: two realtime creates followed by a
realtime update event that re-keys allocation "a" onto the occupied key
(r1, d2) leave two allocations with the same (resource_id, date). -/
theorem allocation_key_unique_counterexample :
    allocKeyCount "r1" "d2" (applyAllocOps
      [ .event .create ⟨"a", "r1", "d1", 50, "#111", "", ""⟩,
        .event .create ⟨"b", "r1", "d2", 60, "#222", "", ""⟩,
        .event .update ⟨"a", "r1", "d2", 70, "#333", "", ""⟩ ] []) = 2 := by
  decide

-- ==================== C10: in-flight confirmation overwrites ====================

theorem filter_countP_zero {α : Type} {p : α → Bool} {l : List α}
    (h : l.countP p = 0) : l.filter p = [] := by
  rw [List.countP_eq_length_filter] at h
  exact List.length_eq_zero.mp h

theorem filter_replaceFirst_singleton {α : Type} {p : α → Bool} {x : α} (hx : p x = true) :
    ∀ {l : List α}, l.countP p = 1 → (replaceFirst p x l).filter p = [x]
  | [], h => by simp [List.countP_nil] at h
  | y :: ys, h => by
    by_cases hy : p y = true
    · have hys : ys.countP p = 0 := by
        rw [List.countP_cons, if_pos hy] at h
        omega
      simp only [replaceFirst, hy, if_true]
      rw [List.filter_cons_of_pos hx, filter_countP_zero hys]
    · have hys : ys.countP p = 1 := by
        rw [List.countP_cons, if_neg hy] at h
        omega
      simp only [replaceFirst, hy, Bool.false_eq_true, if_false]
      rw [List.filter_cons_of_neg (by simpa using hy)]
      exact filter_replaceFirst_singleton hx hys

theorem filter_updateFirst_singleton {α : Type} {p : α → Bool} {f : α → α}
    (hf : ∀ a, p (f a) = p a) :
    ∀ {l : List α}, l.countP p = 1 →
      ∃ y, p y = true ∧ y ∈ l ∧ (updateFirst p f l).filter p = [f y]
  | [], h => by simp [List.countP_nil] at h
  | y :: ys, h => by
    by_cases hy : p y = true
    · have hys : ys.countP p = 0 := by
        rw [List.countP_cons, if_pos hy] at h
        omega
      refine ⟨y, hy, List.mem_cons_self y ys, ?_⟩
      simp only [updateFirst, hy, if_true]
      rw [List.filter_cons_of_pos (by rw [hf]; exact hy), filter_countP_zero hys]
    · have hys : ys.countP p = 1 := by
        rw [List.countP_cons, if_neg hy] at h
        omega
      obtain ⟨z, hz1, hz2, hz3⟩ := filter_updateFirst_singleton hf hys
      refine ⟨z, hz1, List.mem_cons_of_mem y hz2, ?_⟩
      simp only [updateFirst, hy, Bool.false_eq_true, if_false]
      rw [List.filter_cons_of_neg (by simpa using hy)]
      exact hz3

theorem allocKeyCount_setAllocation_self {l : List Allocation} {rid date : String}
    (p : Rat) (c t n : String) (h : allocKeyCount rid date l ≤ 1) :
    allocKeyCount rid date (setAllocation rid date p c t n l) = 1 := by
  unfold setAllocation
  by_cases hany : l.any (fun a => a.resource_id == rid && a.date == date) = true
  · rw [if_pos hany]
    unfold allocKeyCount at h ⊢
    have heq := countP_updateFirst
      (p := fun a => a.resource_id == rid && a.date == date)
      (q := fun a => a.resource_id == rid && a.date == date)
      (f := fun a => { a with percentage := p, color_hex := c })
      (fun a => rfl) l
    rw [heq]
    have hpos := any_iff_countP_pos.mp hany
    omega
  · rw [if_neg hany]
    unfold allocKeyCount at h ⊢
    rw [List.countP_append]
    have hzero := any_eq_false_iff_countP_zero.mp (eq_false_of_ne_true hany)
    simp [List.countP_cons, hzero]

/-- C10: painting (rid, date) with p1, repainting the same cell with p2
while the first remote upsert is in flight, and then running the first
upsert's success continuation with the server record: immediately before
the continuation the cell shows the repaint p2, and the continuation
replaces the occupant of the key wholesale with the server record —
overwriting the newer repaint until its own confirmation resolves. -/
theorem confirm_overwrites_repaint (l : List Allocation) (rid date : String)
    (p1 p2 : Rat) (c1 c2 t1 t2 n1 n2 : String) (saved : Allocation)
    (hrid : saved.resource_id = rid) (hdate : saved.date = date)
    (huniq : allocKeyCount rid date l ≤ 1) :
    (((setAllocation rid date p2 c2 t2 n2 (setAllocation rid date p1 c1 t1 n1 l)).filter
        (fun a => a.resource_id == rid && a.date == date)).map (·.percentage) = [p2])
    ∧ (setAllocationSuccess rid date saved
        (setAllocation rid date p2 c2 t2 n2 (setAllocation rid date p1 c1 t1 n1 l))).filter
        (fun a => a.resource_id == rid && a.date == date) = [saved] := by
  have h1 : allocKeyCount rid date (setAllocation rid date p1 c1 t1 n1 l) = 1 :=
    allocKeyCount_setAllocation_self p1 c1 t1 n1 huniq
  have h2 : allocKeyCount rid date
      (setAllocation rid date p2 c2 t2 n2 (setAllocation rid date p1 c1 t1 n1 l)) = 1 :=
    allocKeyCount_setAllocation_self p2 c2 t2 n2 (le_of_eq h1)
  constructor
  · set m := setAllocation rid date p1 c1 t1 n1 l with hm
    have hcnt : m.countP (fun a => a.resource_id == rid && a.date == date) = 1 := by
      unfold allocKeyCount at h1
      exact h1
    have hany : m.any (fun a => a.resource_id == rid && a.date == date) = true :=
      any_iff_countP_pos.mpr (by omega)
    obtain ⟨y, hy1, hy2, hy3⟩ := filter_updateFirst_singleton
      (p := fun (a : Allocation) => a.resource_id == rid && a.date == date)
      (f := fun (a : Allocation) => { a with percentage := p2, color_hex := c2 })
      (fun a => rfl) hcnt
    have hstep : setAllocation rid date p2 c2 t2 n2 m
        = updateFirst (fun a => a.resource_id == rid && a.date == date)
            (fun a => { a with percentage := p2, color_hex := c2 }) m := by
      unfold setAllocation
      rw [if_pos hany]
    rw [hstep, hy3]
    rfl
  · have hcnt2 : (setAllocation rid date p2 c2 t2 n2
        (setAllocation rid date p1 c1 t1 n1 l)).countP
        (fun a => a.resource_id == rid && a.date == date) = 1 := by
      unfold allocKeyCount at h2
      exact h2
    have hsaved : (saved.resource_id == rid && saved.date == date) = true := by
      simp [hrid, hdate]
    exact filter_replaceFirst_singleton
      (p := fun (a : Allocation) => a.resource_id == rid && a.date == date)
      (x := saved) hsaved hcnt2

/-- Witness for C10 at a concrete repaint race: paint 50, repaint 80, then
the confirmation of the 50-paint resolves with the server record carrying
percentage 50 — the cell reverts to 50. -/
theorem confirm_overwrites_repaint_witness :
    (((setAllocation "r1" "d1" 80 "#222" "tmp2" "now2"
        (setAllocation "r1" "d1" 50 "#111" "tmp1" "now1" [])).filter
        (fun a => a.resource_id == "r1" && a.date == "d1")).map (·.percentage) = [(80 : Rat)])
    ∧ (setAllocationSuccess "r1" "d1" ⟨"srv", "r1", "d1", 50, "#111", "", ""⟩
        (setAllocation "r1" "d1" 80 "#222" "tmp2" "now2"
          (setAllocation "r1" "d1" 50 "#111" "tmp1" "now1" []))).filter
        (fun a => a.resource_id == "r1" && a.date == "d1")
        = [⟨"srv", "r1", "d1", 50, "#111", "", ""⟩] :=
  confirm_overwrites_repaint [] "r1" "d1" 50 80 "#111" "#222" "tmp1" "tmp2" "now1" "now2"
    ⟨"srv", "r1", "d1", 50, "#111", "", ""⟩ rfl rfl (by decide)

-- ==================== C3: task delete cascade ====================

/-- Referential integrity of the store: every resource points at a listed
task and every allocation at a listed resource. -/
def wellFormed (s : PState) : Prop :=
  (∀ r ∈ s.resources, ∃ t ∈ s.tasks, t.id = r.task_id) ∧
  (∀ a ∈ s.allocations, ∃ r ∈ s.resources, r.id = a.resource_id)

theorem mem_contains_true {l : List String} {x : String} (h : x ∈ l) :
    l.contains x = true := by
  exact List.elem_iff.mpr h

instance (s : PState) : Decidable (wellFormed s) := by
  unfold wellFormed
  infer_instance

/-- C3: deleteTask (and the identical delete branch of handleTaskChange,
which computes the same pure state update) removes, in the one synchronous
update it performs, the task itself, every resource with task_id = id, and
every allocation belonging to such a resource; and it preserves
referential integrity, so no orphaned child is ever observable — the
update is a single pure function of the previous state, so no intermediate
state exists at all. -/
theorem delete_cascade (id : String) (s : PState) :
    (∀ t ∈ (deleteTask id s).tasks, t.id ≠ id)
    ∧ (∀ r ∈ (deleteTask id s).resources, r.task_id ≠ id)
    ∧ (∀ r ∈ s.resources, r.task_id = id →
        ∀ a ∈ (deleteTask id s).allocations, a.resource_id ≠ r.id)
    ∧ (wellFormed s → wellFormed (deleteTask id s))
    ∧ (∀ record : Task, record.id = id → handleTaskChange .delete record s = deleteTask id s) := by
  refine ⟨?_, ?_, ?_, ?_, ?_⟩
  · intro t ht
    have := (List.mem_filter.mp ht).2
    simpa using this
  · intro r hr
    have := (List.mem_filter.mp hr).2
    simpa using this
  · intro r hr hrid a ha heq
    have hmem : r.id ∈ (List.filter (fun r => r.task_id == id) s.resources).map (·.id) := by
      refine List.mem_map.mpr ⟨r, ?_, rfl⟩
      exact List.mem_filter.mpr ⟨hr, by simp [hrid]⟩
    have hpred := (List.mem_filter.mp ha).2
    rw [heq] at hpred
    rw [mem_contains_true hmem] at hpred
    simp at hpred
  · intro hwf
    constructor
    · intro r hr
      obtain ⟨hrs, hrp⟩ := List.mem_filter.mp hr
      obtain ⟨t, hts, htid⟩ := hwf.1 r hrs
      refine ⟨t, List.mem_filter.mpr ⟨hts, ?_⟩, htid⟩
      have : r.task_id ≠ id := by simpa using hrp
      rw [htid]
      simpa using this
    · intro a ha
      obtain ⟨has, hap⟩ := List.mem_filter.mp ha
      obtain ⟨r, hrs, hrid⟩ := hwf.2 a has
      refine ⟨r, List.mem_filter.mpr ⟨hrs, ?_⟩, hrid⟩
      by_cases htid : r.task_id = id
      · exfalso
        have hmem : r.id ∈ (List.filter (fun r => r.task_id == id) s.resources).map (·.id) := by
          refine List.mem_map.mpr ⟨r, List.mem_filter.mpr ⟨hrs, by simp [htid]⟩, rfl⟩
        rw [← hrid] at hap
        rw [mem_contains_true hmem] at hap
        simp at hap
      · simpa using htid
  · intro record hrec
    subst hrec
    rfl

/-- Witness for C3: a one-task, one-resource, one-allocation store stays
referentially intact after deleting the task, and the realtime delete
branch computes the same state. -/
theorem delete_cascade_witness :
    wellFormed ⟨[⟨"t1", "p", "1", "T", 1, "", ""⟩], [⟨"r1", "t1", "A", 1, "", ""⟩],
        [⟨"a1", "r1", "2024-01-01", 50, "#111", "", ""⟩], none⟩
    ∧ wellFormed (deleteTask "t1" ⟨[⟨"t1", "p", "1", "T", 1, "", ""⟩],
        [⟨"r1", "t1", "A", 1, "", ""⟩],
        [⟨"a1", "r1", "2024-01-01", 50, "#111", "", ""⟩], none⟩)
    ∧ handleTaskChange .delete ⟨"t1", "p", "1", "T", 1, "", ""⟩
        ⟨[⟨"t1", "p", "1", "T", 1, "", ""⟩], [⟨"r1", "t1", "A", 1, "", ""⟩],
          [⟨"a1", "r1", "2024-01-01", 50, "#111", "", ""⟩], none⟩
      = deleteTask "t1" ⟨[⟨"t1", "p", "1", "T", 1, "", ""⟩],
          [⟨"r1", "t1", "A", 1, "", ""⟩],
          [⟨"a1", "r1", "2024-01-01", 50, "#111", "", ""⟩], none⟩ :=
  ⟨by decide,
   (delete_cascade "t1" _).2.2.2.1 (by decide),
   (delete_cascade "t1" _).2.2.2.2 _ (by decide)⟩


-- ==================== C4: failed update rollback ====================

theorem updateFirst_rollback {α : Type} {p : α → Bool} {f g : α → α} {orig : α}
    (hpf : ∀ a, p a = true → p (f a) = true) (hfg : g (f orig) = orig) :
    ∀ {l : List α}, l.find? p = some orig →
      updateFirst p g (updateFirst p f l) = l
  | y :: ys, hfind => by
    by_cases hy : p y = true
    · have horig : orig = y := by
        rw [List.find?_cons_of_pos _ hy] at hfind
        exact (Option.some_injective _ hfind).symm
      subst horig
      simp only [updateFirst, hy, if_true, hpf orig hy, hfg]
    · have hfind2 : ys.find? p = some orig := by
        rwa [List.find?_cons_of_neg _ (by simpa using hy)] at hfind
      simp only [updateFirst, hy, Bool.false_eq_true, if_false]
      exact congrArg (y :: ·) (updateFirst_rollback hpf hfg hfind2)

/-- C4: when the remote call of updateTaskAsync or updateResourceAsync
fails, the store holds exactly the pre-update records again — same field
values, same order, same identifiers — the error message is set, and no
other collection is touched.  The update delta is quantified over every
delta the application constructs (callers pass name / display_id content
fields and never an id, hence the id-free hypotheses); temp ids never
reach the remote call, hence the temp-id hypothesis. -/
theorem failed_update_rolls_back (s : PState) (id : String) (msg : String)
    (u : TaskUpdates) (v : ResourceUpdates)
    (hid : isTemp id = false) (hu : u.id = none) (hv : v.id = none) :
    (updateTaskAsyncFailed id u msg s).tasks = s.tasks
    ∧ (updateTaskAsyncFailed id u msg s).resources = s.resources
    ∧ (updateTaskAsyncFailed id u msg s).allocations = s.allocations
    ∧ (updateTaskAsyncFailed id u msg s).error = some msg
    ∧ (updateResourceAsyncFailed id v msg s).resources = s.resources
    ∧ (updateResourceAsyncFailed id v msg s).tasks = s.tasks
    ∧ (updateResourceAsyncFailed id v msg s).allocations = s.allocations
    ∧ (updateResourceAsyncFailed id v msg s).error = some msg := by
  have hidf : ¬ isTemp id = true := by simp [hid]
  have htask : (updateTaskAsyncFailed id u msg s).tasks = s.tasks := by
    unfold updateTaskAsyncFailed
    rw [if_neg hidf]
    cases hfind : s.tasks.find? (fun t => t.id == id) with
    | none =>
      have hall := List.find?_eq_none.mp hfind
      simp only [updateTask]
      rw [updateFirst_eq_self (fun a ha => eq_false_of_ne_true (hall a ha))]
    | some orig =>
      simp only [updateTask]
      refine updateFirst_rollback ?_ ?_ hfind
      · intro a hpa
        have : (applyTaskUpdates u a).id = a.id := by
          simp [applyTaskUpdates, hu]
        simp only [this]
        exact hpa
      · rfl
  have hres : (updateResourceAsyncFailed id v msg s).resources = s.resources := by
    unfold updateResourceAsyncFailed
    rw [if_neg hidf]
    cases hfind : s.resources.find? (fun r => r.id == id) with
    | none =>
      have hall := List.find?_eq_none.mp hfind
      simp only [updateResource]
      rw [updateFirst_eq_self (fun a ha => eq_false_of_ne_true (hall a ha))]
    | some orig =>
      simp only [updateResource]
      refine updateFirst_rollback ?_ ?_ hfind
      · intro a hpa
        have : (applyResourceUpdates v a).id = a.id := by
          simp [applyResourceUpdates, hv]
        simp only [this]
        exact hpa
      · rfl
  refine ⟨htask, ?_, ?_, ?_, hres, ?_, ?_, ?_⟩ <;>
    simp only [updateTaskAsyncFailed, updateResourceAsyncFailed, hid,
      Bool.false_eq_true, if_false] <;>
    first
      | rfl
      | (cases s.tasks.find? (fun t => t.id == id) <;> rfl)
      | (cases s.resources.find? (fun r => r.id == id) <;> rfl)

/-- Witness for C4: a failing rename of task t1 on a concrete store
restores the tasks exactly and sets the error message. -/
theorem failed_update_rolls_back_witness :
    isTemp "t1" = false
    ∧ (updateTaskAsyncFailed "t1" ⟨none, none, none, some "New", none, none, none⟩ "boom"
        ⟨[⟨"t1", "p", "1", "Old", 1, "", ""⟩], [⟨"r1", "t1", "A", 1, "", ""⟩], [], none⟩).tasks
      = [⟨"t1", "p", "1", "Old", 1, "", ""⟩]
    ∧ (updateTaskAsyncFailed "t1" ⟨none, none, none, some "New", none, none, none⟩ "boom"
        ⟨[⟨"t1", "p", "1", "Old", 1, "", ""⟩], [⟨"r1", "t1", "A", 1, "", ""⟩], [], none⟩).error
      = some "boom" := by
  refine ⟨by decide, ?_, ?_⟩
  · exact (failed_update_rolls_back
      ⟨[⟨"t1", "p", "1", "Old", 1, "", ""⟩], [⟨"r1", "t1", "A", 1, "", ""⟩], [], none⟩
      "t1" "boom" ⟨none, none, none, some "New", none, none, none⟩
      ⟨none, none, none, none, none, none⟩ (by decide) rfl rfl).1
  · exact (failed_update_rolls_back
      ⟨[⟨"t1", "p", "1", "Old", 1, "", ""⟩], [⟨"r1", "t1", "A", 1, "", ""⟩], [], none⟩
      "t1" "boom" ⟨none, none, none, some "New", none, none, none⟩
      ⟨none, none, none, none, none, none⟩ (by decide) rfl rfl).2.2.2.1


-- ==================== C1: optimistic create vs realtime create ====================

theorem race_replace_counts {α : Type} (idOf : α → String) {p : α → Bool}
    {tempId rid : String} {x : α} {l : List α}
    (hx : idOf x = rid) (hrid : rid ≠ tempId)
    (h1 : ∀ t ∈ l, idOf t ≠ rid)
    (h2 : l.countP (fun t => idOf t == tempId) = 1)
    (hpicks : ∀ ex, l.find? p = some ex → idOf ex = tempId)
    (hany : l.any p = true) :
    (replaceFirst p x l).countP (fun t => idOf t == rid) = 1
    ∧ (replaceFirst p x l).countP (fun t => idOf t == tempId) = 0 := by
  obtain ⟨ex, hfind⟩ :=
    Option.isSome_iff_exists.mp (List.find?_isSome.mpr (List.any_eq_true.mp hany))
  have hexmem := List.mem_of_find?_eq_some hfind
  have hextemp : idOf ex = tempId := hpicks ex hfind
  have hq0 : l.countP (fun t => idOf t == rid) = 0 := by
    rw [List.countP_eq_zero]
    intro a ha
    simp [h1 a ha]
  constructor
  · have e1 := countP_replaceFirst (x := x) (q := fun t => idOf t == rid) hfind
    rw [if_neg (by simp [h1 ex hexmem]), if_pos (by simp [hx])] at e1
    omega
  · have e2 := countP_replaceFirst (x := x) (q := fun t => idOf t == tempId) hfind
    rw [if_pos (by simp [hextemp]), if_neg (by simp [hx, hrid])] at e2
    omega

theorem handleTaskCreate_of_present {record : Task} {s : PState}
    (h : s.tasks.any (fun t => t.id == record.id) = true) :
    handleTaskChange .create record s = s := by
  simp only [handleTaskChange, h, if_true]

theorem createTaskSuccess_of_no_temp {tempId : String} {newTask : Task} {s : PState}
    (h : s.tasks.any (fun t => t.id == tempId) = false) :
    createTaskSuccess tempId newTask s = s := by
  unfold createTaskSuccess
  rw [h]
  simp

theorem handleResourceCreate_of_present {record : Resource} {s : PState}
    (h : s.resources.any (fun r => r.id == record.id) = true) :
    handleResourceChange .create record s = s := by
  simp only [handleResourceChange, h, if_true]

theorem createResourceSuccess_of_no_temp {tempId : String} {newResource : Resource} {s : PState}
    (h : s.resources.any (fun r => r.id == tempId) = false) :
    createResourceSuccess tempId newResource s = s := by
  unfold createResourceSuccess
  rw [h]
  simp

/-- C1: when an optimistic create races with the realtime create event for
the same logical record (the event carrying the server identifier, the
store holding exactly one matching temp record for it and no record with
the server identifier yet), then after the success continuation and the
realtime create handler have both run — in either order — the store holds
exactly one record with the server identifier and none with the temp
identifier: never zero, never two.  Stated for tasks (createTaskAsync /
handleTaskChange) and resources (createResourceAsync /
handleResourceChange). -/
theorem optimistic_create_race (s : PState) (tempId tempIdR : String)
    (newTask : Task) (newResource : Resource)
    (ht1 : ∀ t ∈ s.tasks, t.id ≠ newTask.id)
    (ht2 : s.tasks.countP (fun t => t.id == tempId) = 1)
    (ht3 : ∀ t ∈ s.tasks, (matchesTempTask newTask t = true ↔ t.id = tempId))
    (hr1 : ∀ r ∈ s.resources, r.id ≠ newResource.id)
    (hr2 : s.resources.countP (fun r => r.id == tempIdR) = 1)
    (hr3 : ∀ r ∈ s.resources, (matchesTempResource newResource r = true ↔ r.id = tempIdR)) :
    ((handleTaskChange .create newTask (createTaskSuccess tempId newTask s)).tasks.countP
        (fun t => t.id == newTask.id) = 1
      ∧ (handleTaskChange .create newTask (createTaskSuccess tempId newTask s)).tasks.countP
        (fun t => t.id == tempId) = 0)
    ∧ ((createTaskSuccess tempId newTask (handleTaskChange .create newTask s)).tasks.countP
        (fun t => t.id == newTask.id) = 1
      ∧ (createTaskSuccess tempId newTask (handleTaskChange .create newTask s)).tasks.countP
        (fun t => t.id == tempId) = 0)
    ∧ ((handleResourceChange .create newResource
          (createResourceSuccess tempIdR newResource s)).resources.countP
        (fun r => r.id == newResource.id) = 1
      ∧ (handleResourceChange .create newResource
          (createResourceSuccess tempIdR newResource s)).resources.countP
        (fun r => r.id == tempIdR) = 0)
    ∧ ((createResourceSuccess tempIdR newResource
          (handleResourceChange .create newResource s)).resources.countP
        (fun r => r.id == newResource.id) = 1
      ∧ (createResourceSuccess tempIdR newResource
          (handleResourceChange .create newResource s)).resources.countP
        (fun r => r.id == tempIdR) = 0) := by
  -- shared facts, task side
  obtain ⟨t0, ht0mem, ht0id⟩ := by
    have hpos : 0 < s.tasks.countP (fun t => t.id == tempId) := by omega
    exact List.countP_pos_iff.mp hpos
  have ht0eq : t0.id = tempId := eq_of_beq ht0id
  have hridt : newTask.id ≠ tempId := fun h => (ht1 t0 ht0mem) (by rw [ht0eq, h])
  have hanytemp : s.tasks.any (fun t => t.id == tempId) = true :=
    any_iff_countP_pos.mpr (by omega)
  have hanyreal : s.tasks.any (fun t => t.id == newTask.id) = false := by
    rw [List.any_eq_false]
    intro t ht
    simp [ht1 t ht]
  have hanymatch : s.tasks.any (matchesTempTask newTask) = true :=
    List.any_eq_true.mpr ⟨t0, ht0mem, (ht3 t0 ht0mem).mpr ht0eq⟩
  -- shared facts, resource side
  obtain ⟨r0, hr0mem, hr0id⟩ := by
    have hpos : 0 < s.resources.countP (fun r => r.id == tempIdR) := by omega
    exact List.countP_pos_iff.mp hpos
  have hr0eq : r0.id = tempIdR := eq_of_beq hr0id
  have hridr : newResource.id ≠ tempIdR := fun h => (hr1 r0 hr0mem) (by rw [hr0eq, h])
  have hanytempR : s.resources.any (fun r => r.id == tempIdR) = true :=
    any_iff_countP_pos.mpr (by omega)
  have hanyrealR : s.resources.any (fun r => r.id == newResource.id) = false := by
    rw [List.any_eq_false]
    intro r hr
    simp [hr1 r hr]
  have hanymatchR : s.resources.any (matchesTempResource newResource) = true :=
    List.any_eq_true.mpr ⟨r0, hr0mem, (hr3 r0 hr0mem).mpr hr0eq⟩
  -- order A, tasks: success continuation first
  have hS : createTaskSuccess tempId newTask s
      = { s with tasks := replaceFirst (fun t => t.id == tempId) newTask s.tasks } := by
    unfold createTaskSuccess
    rw [hanytemp, hanyreal]
    simp
  have hcA := race_replace_counts (fun t : Task => t.id)
    (p := fun t => t.id == tempId) rfl hridt ht1 ht2
    (fun ex hf => by have h := List.find?_some hf; exact eq_of_beq h) hanytemp
  have hHA : handleTaskChange .create newTask
      { s with tasks := replaceFirst (fun t => t.id == tempId) newTask s.tasks }
      = { s with tasks := replaceFirst (fun t => t.id == tempId) newTask s.tasks } :=
    handleTaskCreate_of_present (any_iff_countP_pos.mpr (by
      have h1 : List.countP (fun t => t.id == newTask.id)
          (replaceFirst (fun t => t.id == tempId) newTask s.tasks) = 1 := hcA.1
      show 0 < List.countP (fun t => t.id == newTask.id)
        (replaceFirst (fun t => t.id == tempId) newTask s.tasks)
      omega))
  -- order B, tasks: realtime create first
  have hB : handleTaskChange .create newTask s
      = { s with tasks := replaceFirst (matchesTempTask newTask) newTask s.tasks } := by
    simp only [handleTaskChange, hanyreal, hanymatch, Bool.false_eq_true, if_false, if_true]
  have hcB := race_replace_counts (fun t : Task => t.id)
    (p := matchesTempTask newTask) rfl hridt ht1 ht2
    (fun ex hf => (ht3 ex (List.mem_of_find?_eq_some hf)).mp (List.find?_some hf)) hanymatch
  have hSB : createTaskSuccess tempId newTask
      { s with tasks := replaceFirst (matchesTempTask newTask) newTask s.tasks }
      = { s with tasks := replaceFirst (matchesTempTask newTask) newTask s.tasks } :=
    createTaskSuccess_of_no_temp (any_eq_false_iff_countP_zero.mpr hcB.2)
  -- order A, resources
  have hSr : createResourceSuccess tempIdR newResource s
      = { s with resources := replaceFirst (fun r => r.id == tempIdR) newResource s.resources } := by
    unfold createResourceSuccess
    rw [hanytempR, hanyrealR]
    simp
  have hcAr := race_replace_counts (fun r : Resource => r.id)
    (p := fun r => r.id == tempIdR) rfl hridr hr1 hr2
    (fun ex hf => by have h := List.find?_some hf; exact eq_of_beq h) hanytempR
  have hHAr : handleResourceChange .create newResource
      { s with resources := replaceFirst (fun r => r.id == tempIdR) newResource s.resources }
      = { s with resources := replaceFirst (fun r => r.id == tempIdR) newResource s.resources } :=
    handleResourceCreate_of_present (any_iff_countP_pos.mpr (by
      have h1 : List.countP (fun r => r.id == newResource.id)
          (replaceFirst (fun r => r.id == tempIdR) newResource s.resources) = 1 := hcAr.1
      show 0 < List.countP (fun r => r.id == newResource.id)
        (replaceFirst (fun r => r.id == tempIdR) newResource s.resources)
      omega))
  -- order B, resources
  have hBr : handleResourceChange .create newResource s
      = { s with resources := replaceFirst (matchesTempResource newResource) newResource s.resources } := by
    simp only [handleResourceChange, hanyrealR, hanymatchR, Bool.false_eq_true, if_false, if_true]
  have hcBr := race_replace_counts (fun r : Resource => r.id)
    (p := matchesTempResource newResource) rfl hridr hr1 hr2
    (fun ex hf => (hr3 ex (List.mem_of_find?_eq_some hf)).mp (List.find?_some hf)) hanymatchR
  have hSBr : createResourceSuccess tempIdR newResource
      { s with resources := replaceFirst (matchesTempResource newResource) newResource s.resources }
      = { s with resources := replaceFirst (matchesTempResource newResource) newResource s.resources } :=
    createResourceSuccess_of_no_temp (any_eq_false_iff_countP_zero.mpr hcBr.2)
  refine ⟨⟨?_, ?_⟩, ⟨?_, ?_⟩, ⟨?_, ?_⟩, ⟨?_, ?_⟩⟩
  · rw [hS, hHA]
    exact hcA.1
  · rw [hS, hHA]
    exact hcA.2
  · rw [hB, hSB]
    exact hcB.1
  · rw [hB, hSB]
    exact hcB.2
  · rw [hSr, hHAr]
    exact hcAr.1
  · rw [hSr, hHAr]
    exact hcAr.2
  · rw [hBr, hSBr]
    exact hcBr.1
  · rw [hBr, hSBr]
    exact hcBr.2

/-- Witness for C1: a store holding one temp task and one temp resource,
raced against the confirmed records for the same logical entities. -/
theorem optimistic_create_race_witness :
    ((handleTaskChange .create ⟨"srv1", "p", "1", "T", 1, "", ""⟩
      (createTaskSuccess "temp_1" ⟨"srv1", "p", "1", "T", 1, "", ""⟩
        ⟨[⟨"temp_1", "p", "1", "T", 1, "", ""⟩], [⟨"temp_2", "t1", "A", 1, "", ""⟩], [],
          none⟩)).tasks.countP (fun t => t.id == "srv1") = 1
    ∧ (handleTaskChange .create ⟨"srv1", "p", "1", "T", 1, "", ""⟩
      (createTaskSuccess "temp_1" ⟨"srv1", "p", "1", "T", 1, "", ""⟩
        ⟨[⟨"temp_1", "p", "1", "T", 1, "", ""⟩], [⟨"temp_2", "t1", "A", 1, "", ""⟩], [],
          none⟩)).tasks.countP (fun t => t.id == "temp_1") = 0)
    ∧ ((createTaskSuccess "temp_1" ⟨"srv1", "p", "1", "T", 1, "", ""⟩
      (handleTaskChange .create ⟨"srv1", "p", "1", "T", 1, "", ""⟩
        ⟨[⟨"temp_1", "p", "1", "T", 1, "", ""⟩], [⟨"temp_2", "t1", "A", 1, "", ""⟩], [],
          none⟩)).tasks.countP (fun t => t.id == "srv1") = 1
    ∧ (createTaskSuccess "temp_1" ⟨"srv1", "p", "1", "T", 1, "", ""⟩
      (handleTaskChange .create ⟨"srv1", "p", "1", "T", 1, "", ""⟩
        ⟨[⟨"temp_1", "p", "1", "T", 1, "", ""⟩], [⟨"temp_2", "t1", "A", 1, "", ""⟩], [],
          none⟩)).tasks.countP (fun t => t.id == "temp_1") = 0) := by
  have h := optimistic_create_race
    ⟨[⟨"temp_1", "p", "1", "T", 1, "", ""⟩], [⟨"temp_2", "t1", "A", 1, "", ""⟩], [], none⟩
    "temp_1" "temp_2" ⟨"srv1", "p", "1", "T", 1, "", ""⟩ ⟨"srv2", "t1", "A", 1, "", ""⟩
    (by decide) (by decide) (by decide) (by decide) (by decide) (by decide)
  exact ⟨h.1, h.2.1⟩


-- ==================== C7: update-event semantics ====================

/-- C7 counterexample: a realtime update event for a task id absent from
the store inserts nothing — under the claimed upsertOne semantics the
record would be inserted. -/
theorem update_event_upsert_counterexample :
    (handleTaskChange .update ⟨"x", "p", "1", "T", 1, "", ""⟩ ⟨[], [], [], none⟩).tasks = []
    ∧ ¬ ((⟨"x", "p", "1", "T", 1, "", ""⟩ : Task)
        ∈ (handleTaskChange .update ⟨"x", "p", "1", "T", 1, "", ""⟩ ⟨[], [], [], none⟩).tasks) := by
  decide

/-- C7 (amended): a realtime update event overwrites all fields of the
record with the matching identifier in place when one exists; when none
exists the event is ignored for tasks and resources, and for allocations
it falls back to replacing the allocation with the same
(resource_id, date) key, being ignored only when neither matches.  No
branch ever inserts an absent record. -/
theorem update_event_semantics :
    (∀ (record : Task) (s : PState), (∀ t ∈ s.tasks, t.id ≠ record.id) →
        handleTaskChange .update record s = s)
    ∧ (∀ (record old : Task) (s : PState) (l1 l2 : List Task),
        s.tasks = l1 ++ old :: l2 → old.id = record.id → (∀ t ∈ l1, t.id ≠ record.id) →
        (handleTaskChange .update record s).tasks = l1 ++ record :: l2
        ∧ (handleTaskChange .update record s).resources = s.resources
        ∧ (handleTaskChange .update record s).allocations = s.allocations)
    ∧ (∀ (record : Resource) (s : PState), (∀ r ∈ s.resources, r.id ≠ record.id) →
        handleResourceChange .update record s = s)
    ∧ (∀ (record old : Resource) (s : PState) (l1 l2 : List Resource),
        s.resources = l1 ++ old :: l2 → old.id = record.id → (∀ r ∈ l1, r.id ≠ record.id) →
        (handleResourceChange .update record s).resources = l1 ++ record :: l2
        ∧ (handleResourceChange .update record s).tasks = s.tasks
        ∧ (handleResourceChange .update record s).allocations = s.allocations)
    ∧ (∀ (record : Allocation) (l : List Allocation), (∀ a ∈ l, a.id ≠ record.id) →
        (∀ a ∈ l, ¬(a.resource_id = record.resource_id ∧ a.date = record.date)) →
        handleAllocationChange .update record l = l)
    ∧ (∀ (record old : Allocation) (l1 l2 : List Allocation),
        old.id = record.id → (∀ a ∈ l1, a.id ≠ record.id) →
        handleAllocationChange .update record (l1 ++ old :: l2) = l1 ++ record :: l2)
    ∧ (∀ (record old : Allocation) (l1 l2 : List Allocation),
        (∀ a ∈ l1 ++ old :: l2, a.id ≠ record.id) →
        old.resource_id = record.resource_id → old.date = record.date →
        (∀ a ∈ l1, ¬(a.resource_id = record.resource_id ∧ a.date = record.date)) →
        handleAllocationChange .update record (l1 ++ old :: l2) = l1 ++ record :: l2) := by
  refine ⟨?_, ?_, ?_, ?_, ?_, ?_, ?_⟩
  · intro record s h
    simp only [handleTaskChange]
    rw [replaceFirst_eq_self (fun t ht => by simp [h t ht])]
  · intro record old s l1 l2 hs hold h1
    simp only [handleTaskChange, hs]
    refine ⟨?_, trivial, trivial⟩
    exact replaceFirst_append_decomp (by simp [hold]) (fun t ht => by simp [h1 t ht])
  · intro record s h
    simp only [handleResourceChange]
    rw [replaceFirst_eq_self (fun r hr => by simp [h r hr])]
  · intro record old s l1 l2 hs hold h1
    simp only [handleResourceChange, hs]
    refine ⟨?_, trivial, trivial⟩
    exact replaceFirst_append_decomp (by simp [hold]) (fun r hr => by simp [h1 r hr])
  · intro record l hid hkey
    simp only [handleAllocationChange]
    rw [if_neg (by
        rw [Bool.not_eq_true, List.any_eq_false]
        intro a ha
        simp [hid a ha]),
      if_neg (by
        rw [Bool.not_eq_true, List.any_eq_false]
        intro a ha
        have := hkey a ha
        by_cases h1 : a.resource_id = record.resource_id
        · have h2 : a.date ≠ record.date := fun h2 => this ⟨h1, h2⟩
          simp [h2]
        · simp [h1])]
  · intro record old l1 l2 hold h1
    simp only [handleAllocationChange]
    rw [if_pos (List.any_eq_true.mpr ⟨old, by simp, by simp [hold]⟩)]
    exact replaceFirst_append_decomp (by simp [hold]) (fun a ha => by simp [h1 a ha])
  · intro record old l1 l2 hid hro hdo hkey
    simp only [handleAllocationChange]
    rw [if_neg (by
        rw [Bool.not_eq_true, List.any_eq_false]
        intro a ha
        simp [hid a ha]),
      if_pos (List.any_eq_true.mpr ⟨old, by simp, by simp [hro, hdo]⟩)]
    exact replaceFirst_append_decomp (by simp [hro, hdo]) (fun a ha => by
      have := hkey a ha
      by_cases h1 : a.resource_id = record.resource_id
      · have h2 : a.date ≠ record.date := fun h2 => this ⟨h1, h2⟩
        simp [h2]
      · simp [h1])

/-- Witness for C7 (amended): an update for a present task overwrites it
in place, and updates for absent records leave the store unchanged. -/
theorem update_event_semantics_witness :
    (handleTaskChange .update ⟨"x", "p", "1", "New", 2, "", ""⟩
        ⟨[⟨"x", "p", "1", "Old", 1, "", ""⟩], [], [], none⟩).tasks
      = [⟨"x", "p", "1", "New", 2, "", ""⟩]
    ∧ handleResourceChange .update ⟨"r9", "t1", "B", 1, "", ""⟩
        ⟨[], [⟨"r1", "t1", "A", 1, "", ""⟩], [], none⟩
      = ⟨[], [⟨"r1", "t1", "A", 1, "", ""⟩], [], none⟩
    ∧ handleAllocationChange .update ⟨"a2", "r1", "d1", 60, "#222", "", ""⟩
        [⟨"a1", "r1", "d1", 50, "#111", "", ""⟩]
      = [⟨"a2", "r1", "d1", 60, "#222", "", ""⟩] := by
  refine ⟨?_, ?_, ?_⟩
  · exact (update_event_semantics.2.1 ⟨"x", "p", "1", "New", 2, "", ""⟩
      ⟨"x", "p", "1", "Old", 1, "", ""⟩
      ⟨[⟨"x", "p", "1", "Old", 1, "", ""⟩], [], [], none⟩ [] []
      rfl rfl (by decide)).1
  · exact update_event_semantics.2.2.1 ⟨"r9", "t1", "B", 1, "", ""⟩
      ⟨[], [⟨"r1", "t1", "A", 1, "", ""⟩], [], none⟩ (by decide)
  · exact update_event_semantics.2.2.2.2.2.2 ⟨"a2", "r1", "d1", 60, "#222", "", ""⟩
      ⟨"a1", "r1", "d1", 50, "#111", "", ""⟩ [] [] (by decide) rfl rfl (by decide)

-- ==================== C9: presence staleness ====================

/-- C9 counterexample: a presence record of another session whose
last_seen (0 ms) is 31 seconds older than now (31000 ms) is still
returned by getOtherUsers, and a realtime presence update event for a
different session leaves it in the list — no reactive staleness filter
exists. -/
theorem presence_staleness_counterexample :
    getOtherUsers "me"
        (handlePresenceChange .create ⟨"pr1", "p", "other", "Bob", "#123", 0⟩ "me" [])
      = [⟨"pr1", "p", "other", "Bob", "#123", 0⟩]
    ∧ ((31000 : Int) - (0 : Int) > 30000)
    ∧ ((⟨"pr1", "p", "other", "Bob", "#123", 0⟩ : Presence)
        ∈ handlePresenceChange .update ⟨"pr2", "p", "third", "Eve", "#456", 31000⟩ "me"
            [⟨"pr1", "p", "other", "Bob", "#123", 0⟩]) := by
  decide

/-- C9 (amended): the staleness window is enforced only by the 10-second
heartbeat tick: immediately after the tick cleanup at time now,
getOtherUsers returns only records seen strictly within the last 30
seconds and never the own session.  Between ticks, and on realtime
presence events, a 31-second-stale record can still be returned (see the
counterexample). -/
theorem presence_staleness_after_tick (now : Int) (sid : String) (l : List Presence)
    (p : Presence) (hp : p ∈ getOtherUsers sid (heartbeatCleanup now l)) :
    now - p.last_seen < 30000 ∧ p.session_id ≠ sid := by
  obtain ⟨hmem, hses⟩ := List.mem_filter.mp hp
  obtain ⟨hmem2, htime⟩ := List.mem_filter.mp hmem
  constructor
  · have := of_decide_eq_true htime
    omega
  · simpa using hses

/-- Witness for C9 (amended): a record heartbeaten 29 seconds ago survives
the tick and is correctly reported as fresh and foreign. -/
theorem presence_staleness_after_tick_witness :
    ((⟨"pr3", "p", "other", "Bob", "#123", 2000⟩ : Presence)
      ∈ getOtherUsers "me" (heartbeatCleanup 31000 [⟨"pr3", "p", "other", "Bob", "#123", 2000⟩]))
    ∧ ((31000 : Int) - 2000 < 30000 ∧ "other" ≠ "me") :=
  ⟨by decide,
   presence_staleness_after_tick 31000 "me" [⟨"pr3", "p", "other", "Bob", "#123", 2000⟩]
     ⟨"pr3", "p", "other", "Bob", "#123", 2000⟩ (by decide)⟩


-- ==================== C5: out-of-order parent queueing ====================

theorem addId_contains_self (x : String) (l : List String) :
    (addId x l).contains x = true := by
  unfold addId
  by_cases h : l.contains x = true
  · rw [if_pos h]
    exact h
  · rw [if_neg h]
    exact List.elem_iff.mpr (List.mem_append_right l (List.mem_singleton.mpr rfl))

theorem pendingResourceStep_taskIds (s : SubState) (e : REvent) :
    (pendingResourceStep s e).taskIds = s.taskIds := by
  unfold pendingResourceStep
  by_cases h : s.taskIds.contains e.record.task_id = true
  · rw [if_pos h]
    cases e.action <;> rfl
  · rw [if_neg h]

theorem pendingResourceStep_delivered_mono {s : SubState} {e : REvent} {x : REvent}
    (h : x ∈ s.deliveredResources) :
    x ∈ (pendingResourceStep s e).deliveredResources := by
  unfold pendingResourceStep
  by_cases hc : s.taskIds.contains e.record.task_id = true
  · rw [if_pos hc]
    cases e.action <;> exact List.mem_append_left _ h
  · rw [if_neg hc]
    exact h

theorem foldl_pendingResourceStep_delivered_mono {x : REvent} :
    ∀ (l : List REvent) (s : SubState), x ∈ s.deliveredResources →
      x ∈ (l.foldl pendingResourceStep s).deliveredResources
  | [], _, h => h
  | e :: l, s, h =>
    foldl_pendingResourceStep_delivered_mono l (pendingResourceStep s e)
      (pendingResourceStep_delivered_mono h)

theorem foldl_pendingResourceStep_delivers {e : REvent} :
    ∀ (l : List REvent) (s : SubState), e ∈ l →
      s.taskIds.contains e.record.task_id = true →
      e ∈ (l.foldl pendingResourceStep s).deliveredResources
  | e2 :: l, s, he, ht => by
    rcases List.mem_cons.mp he with heq | htail
    · subst heq
      refine foldl_pendingResourceStep_delivered_mono l (pendingResourceStep s e) ?_
      unfold pendingResourceStep
      rw [if_pos ht]
      cases e.action <;> exact List.mem_append_right _ (List.mem_singleton.mpr rfl)
    · refine foldl_pendingResourceStep_delivers l (pendingResourceStep s e2) htail ?_
      rw [pendingResourceStep_taskIds]
      exact ht

theorem processPendingResources_delivers {s : SubState} {e : REvent}
    (he : e ∈ s.pendingResources)
    (ht : s.taskIds.contains e.record.task_id = true) :
    e ∈ (processPendingResources s).deliveredResources :=
  foldl_pendingResourceStep_delivers s.pendingResources _ he ht

theorem pendingAllocationStep_resourceIds (s : SubState) (e : AEvent) :
    (pendingAllocationStep s e).resourceIds = s.resourceIds := by
  unfold pendingAllocationStep
  by_cases h : s.resourceIds.contains e.record.resource_id = true
  · rw [if_pos h]
  · rw [if_neg h]

theorem pendingAllocationStep_delivered_mono {s : SubState} {e : AEvent} {x : AEvent}
    (h : x ∈ s.deliveredAllocations) :
    x ∈ (pendingAllocationStep s e).deliveredAllocations := by
  unfold pendingAllocationStep
  by_cases hc : s.resourceIds.contains e.record.resource_id = true
  · rw [if_pos hc]
    exact List.mem_append_left _ h
  · rw [if_neg hc]
    exact h

theorem foldl_pendingAllocationStep_delivered_mono {x : AEvent} :
    ∀ (l : List AEvent) (s : SubState), x ∈ s.deliveredAllocations →
      x ∈ (l.foldl pendingAllocationStep s).deliveredAllocations
  | [], _, h => h
  | e :: l, s, h =>
    foldl_pendingAllocationStep_delivered_mono l (pendingAllocationStep s e)
      (pendingAllocationStep_delivered_mono h)

theorem foldl_pendingAllocationStep_delivers {e : AEvent} :
    ∀ (l : List AEvent) (s : SubState), e ∈ l →
      s.resourceIds.contains e.record.resource_id = true →
      e ∈ (l.foldl pendingAllocationStep s).deliveredAllocations
  | e2 :: l, s, he, ht => by
    rcases List.mem_cons.mp he with heq | htail
    · subst heq
      refine foldl_pendingAllocationStep_delivered_mono l (pendingAllocationStep s e) ?_
      unfold pendingAllocationStep
      rw [if_pos ht]
      exact List.mem_append_right _ (List.mem_singleton.mpr rfl)
    · refine foldl_pendingAllocationStep_delivers l (pendingAllocationStep s e2) htail ?_
      rw [pendingAllocationStep_resourceIds]
      exact ht

theorem processPendingAllocations_delivers {s : SubState} {e : AEvent}
    (he : e ∈ s.pendingAllocations)
    (ht : s.resourceIds.contains e.record.resource_id = true) :
    e ∈ (processPendingAllocations s).deliveredAllocations :=
  foldl_pendingAllocationStep_delivers s.pendingAllocations _ he ht

/-- C5 counterexample: a resource create event with a not-yet-known
task_id is queued, but a retry-timer flush fires while the parent is still
unknown and discards it; when the owning task's create event is then
processed, the resource event is not delivered — it is permanently lost,
contradicting the claim. -/
theorem queued_event_lost_counterexample :
    (applySubSteps "p"
      [ .rEvent ⟨.create, ⟨"r1", "t1", "Alice", 1, "", ""⟩⟩,
        .flushResources,
        .tEvent ⟨.create, ⟨"t1", "p", "1", "Design", 1, "", ""⟩⟩ ]
      ⟨[], [], [], [], [], [], []⟩).deliveredResources = []
    ∧ (applySubSteps "p"
      [ .rEvent ⟨.create, ⟨"r1", "t1", "Alice", 1, "", ""⟩⟩,
        .tEvent ⟨.create, ⟨"t1", "p", "1", "Design", 1, "", ""⟩⟩ ]
      ⟨[], [], [], [], [], [], []⟩).deliveredResources
      = [⟨.create, ⟨"r1", "t1", "Alice", 1, "", ""⟩⟩] := by
  constructor <;> rfl

/-- C5 (amended): a resource create event whose task_id is not yet in the
task-membership set is queued rather than delivered, and it is delivered
to onResourceChange as soon as the owning task's create event is processed
or updateTaskIds supplies the task id — provided the event is still
pending, i.e. no flush of the pending queue ran while the parent was still
unknown (such a flush discards it permanently: see the counterexample).
The same holds for an allocation event with an unknown resource_id,
delivered when the resource's create event is accepted or
updateResourceIds supplies the resource id. -/
theorem pending_parent_retry (projectId : String) (s : SubState) :
    (∀ e : REvent, e.action = .create →
      s.taskIds.contains e.record.task_id = false →
      (resourceEvent e s).pendingResources = s.pendingResources ++ [e]
      ∧ (resourceEvent e s).deliveredResources = s.deliveredResources)
    ∧ (∀ (e : REvent) (t : TEvent), e ∈ s.pendingResources →
      t.record.project_id = projectId → t.action = .create →
      t.record.id = e.record.task_id →
      e ∈ (taskEvent projectId t s).deliveredResources)
    ∧ (∀ (e : REvent) (ids : List String), e ∈ s.pendingResources →
      ids.contains e.record.task_id = true →
      e ∈ (updateTaskIds ids s).deliveredResources)
    ∧ (∀ e : AEvent, (e.action = .create ∨ e.action = .update) →
      s.resourceIds.contains e.record.resource_id = false →
      (allocEvent e s).pendingAllocations = s.pendingAllocations ++ [e]
      ∧ (allocEvent e s).deliveredAllocations = s.deliveredAllocations)
    ∧ (∀ (e : AEvent) (r : REvent), e ∈ s.pendingAllocations →
      s.taskIds.contains r.record.task_id = true → r.action = .create →
      r.record.id = e.record.resource_id →
      e ∈ (resourceEvent r s).deliveredAllocations)
    ∧ (∀ (e : AEvent) (ids : List String), e ∈ s.pendingAllocations →
      ids.contains e.record.resource_id = true →
      e ∈ (updateResourceIds ids s).deliveredAllocations) := by
  refine ⟨?_, ?_, ?_, ?_, ?_, ?_⟩
  · intro e hact hunk
    unfold resourceEvent
    rw [if_neg (by rw [hunk]; exact Bool.false_ne_true), if_pos (by simp [hact])]
    exact ⟨rfl, rfl⟩
  · intro e t he hproj hact hid
    unfold taskEvent
    rw [if_pos (by simp [hproj])]
    rw [hact]
    exact processPendingResources_delivers he (hid ▸ addId_contains_self _ _)
  · intro e ids he hknown
    exact processPendingResources_delivers he hknown
  · intro e hact hunk
    unfold allocEvent
    rw [if_neg (by rw [hunk]; exact Bool.false_ne_true),
      if_pos (by rcases hact with h | h <;> simp [h])]
    exact ⟨rfl, rfl⟩
  · intro e r he hknown hact hid
    unfold resourceEvent
    rw [if_pos hknown]
    rw [hact]
    exact processPendingAllocations_delivers he (hid ▸ addId_contains_self _ _)
  · intro e ids he hknown
    exact processPendingAllocations_delivers he hknown

/-- Witness for C5 (amended): a queued resource create for unknown task t1
is delivered once the task-create event for t1 is processed next. -/
theorem pending_parent_retry_witness :
    ((resourceEvent ⟨.create, ⟨"r1", "t1", "Alice", 1, "", ""⟩⟩
        ⟨[], [], [], [], [], [], []⟩).pendingResources
      = [⟨.create, ⟨"r1", "t1", "Alice", 1, "", ""⟩⟩])
    ∧ ((⟨.create, ⟨"r1", "t1", "Alice", 1, "", ""⟩⟩ : REvent)
      ∈ (taskEvent "p" ⟨.create, ⟨"t1", "p", "1", "Design", 1, "", ""⟩⟩
        ⟨[], [], [⟨.create, ⟨"r1", "t1", "Alice", 1, "", ""⟩⟩], [], [], [], []⟩).deliveredResources) := by
  constructor
  · exact ((pending_parent_retry "p" ⟨[], [], [], [], [], [], []⟩).1
      ⟨.create, ⟨"r1", "t1", "Alice", 1, "", ""⟩⟩ rfl (by decide)).1
  · exact (pending_parent_retry "p"
      ⟨[], [], [⟨.create, ⟨"r1", "t1", "Alice", 1, "", ""⟩⟩], [], [], [], []⟩).2.1
      ⟨.create, ⟨"r1", "t1", "Alice", 1, "", ""⟩⟩
      ⟨.create, ⟨"t1", "p", "1", "Design", 1, "", ""⟩⟩
      (by decide) rfl rfl rfl


-- ==================== C8: aggregation correctness ====================

theorem charToNat_inj {c d : Char} (h : c.toNat = d.toNat) : c = d :=
  Char.ext (UInt32.ext h)

theorem charListLt_nil_right : ∀ l : List Char, charListLt l [] = false
  | [] => rfl
  | _ :: _ => rfl

theorem charListLt_cons_cons (c d : Char) (cs ds : List Char) :
    charListLt (c :: cs) (d :: ds)
      = if c.toNat < d.toNat then true
        else if d.toNat < c.toNat then false else charListLt cs ds := rfl

theorem charListLt_irrefl : ∀ l : List Char, charListLt l l = false
  | [] => rfl
  | c :: cs => by
    rw [charListLt_cons_cons, if_neg (by omega), if_neg (by omega)]
    exact charListLt_irrefl cs

theorem charListLt_trans : ∀ (l1 l2 l3 : List Char), charListLt l1 l2 = true →
    charListLt l2 l3 = true → charListLt l1 l3 = true
  | _, [], _, h1, _ => by
    rw [charListLt_nil_right] at h1
    simp at h1
  | _, _ :: _, [], _, h2 => by
    rw [charListLt_nil_right] at h2
    simp at h2
  | [], _ :: _, _ :: _, _, _ => rfl
  | c :: cs, d :: ds, e :: es, h1, h2 => by
    rw [charListLt_cons_cons] at h1 h2 ⊢
    rcases Nat.lt_trichotomy c.toNat d.toNat with hcd | hcd | hcd
    · rcases Nat.lt_trichotomy d.toNat e.toNat with hde | hde | hde
      · rw [if_pos (by omega)]
      · rw [if_pos (by omega)]
      · rw [if_neg (by omega), if_pos (by omega)] at h2
        simp at h2
    · rcases Nat.lt_trichotomy d.toNat e.toNat with hde | hde | hde
      · rw [if_pos (by omega)]
      · rw [if_neg (by omega), if_neg (by omega)] at h1
        rw [if_neg (by omega), if_neg (by omega)] at h2
        rw [if_neg (by omega), if_neg (by omega)]
        exact charListLt_trans cs ds es h1 h2
      · rw [if_neg (by omega), if_pos (by omega)] at h2
        simp at h2
    · rw [if_neg (by omega), if_pos (by omega)] at h1
      simp at h1

theorem charListLt_connex : ∀ (l1 l2 : List Char), charListLt l1 l2 = false →
    charListLt l2 l1 = true ∨ l2 = l1
  | [], [], _ => Or.inr rfl
  | _ :: _, [], _ => Or.inl rfl
  | [], _ :: _, h => by simp [show charListLt [] (_ :: _) = true from rfl] at h
  | c :: cs, d :: ds, h => by
    rw [charListLt_cons_cons] at h
    rcases Nat.lt_trichotomy c.toNat d.toNat with hcd | hcd | hcd
    · rw [if_pos hcd] at h
      simp at h
    · rw [if_neg (by omega), if_neg (by omega)] at h
      rcases charListLt_connex cs ds h with h2 | h2
      · left
        rw [charListLt_cons_cons, if_neg (by omega), if_neg (by omega)]
        exact h2
      · right
        rw [h2, show d = c from (charToNat_inj hcd).symm]
    · left
      rw [charListLt_cons_cons, if_pos (by omega)]

theorem dateLt_irrefl (a : String) : dateLt a a = false :=
  charListLt_irrefl a.data

theorem dateLt_trans {a b c : String} (h1 : dateLt a b = true) (h2 : dateLt b c = true) :
    dateLt a c = true :=
  charListLt_trans a.data b.data c.data h1 h2

theorem dateLt_connex {a b : String} (h : dateLt a b = false) :
    dateLt b a = true ∨ b = a := by
  rcases charListLt_connex a.data b.data h with h2 | h2
  · exact Or.inl h2
  · exact Or.inr (String.ext h2)

theorem selFold_spec (lt : String → String → Bool)
    (hirr : ∀ a, lt a a = false)
    (htr : ∀ a b c, lt a b = true → lt b c = true → lt a c = true)
    (hconn : ∀ a b, lt a b = false → lt b a = true ∨ b = a) :
    ∀ (ds : List String) (e : String),
      ((ds.foldl (fun acc x => if lt x acc then x else acc) e) = e
        ∨ (ds.foldl (fun acc x => if lt x acc then x else acc) e) ∈ ds)
      ∧ lt e (ds.foldl (fun acc x => if lt x acc then x else acc) e) = false
      ∧ (∀ x ∈ ds, lt x (ds.foldl (fun acc x => if lt x acc then x else acc) e) = false)
  | [], e => ⟨Or.inl rfl, hirr e, by simp⟩
  | x :: xs, e => by
    have hasym : ∀ a b, lt a b = true → lt b a = false := by
      intro a b hab
      by_contra hba
      rw [Bool.not_eq_false] at hba
      have := htr a b a hab hba
      rw [hirr a] at this
      simp at this
    simp only [List.foldl_cons]
    by_cases hxe : lt x e = true
    · rw [if_pos hxe]
      obtain ⟨hmem, hacc, hall⟩ := selFold_spec lt hirr htr hconn xs x
      refine ⟨?_, ?_, ?_⟩
      · rcases hmem with h | h
        · refine Or.inr ?_
          rw [h]
          exact List.mem_cons_self x xs
        · exact Or.inr (List.mem_cons_of_mem x h)
      · by_contra hed
        rw [Bool.not_eq_false] at hed
        rcases hconn x _ hacc with h | h
        · have := htr e _ x hed h
          rw [hasym x e hxe] at this
          simp at this
        · rw [h] at hed
          rw [hasym x e hxe] at hed
          simp at hed
      · intro y hy
        rcases List.mem_cons.mp hy with h | h
        · rw [h]
          exact hacc
        · exact hall y h
    · rw [if_neg hxe]
      have hxe2 : lt x e = false := by simpa using hxe
      obtain ⟨hmem, hacc, hall⟩ := selFold_spec lt hirr htr hconn xs e
      refine ⟨?_, ?_, ?_⟩
      · rcases hmem with h | h
        · exact Or.inl h
        · exact Or.inr (List.mem_cons_of_mem x h)
      · exact hacc
      · intro y hy
        rcases List.mem_cons.mp hy with h | h
        · rw [h]
          by_contra hyd
          rw [Bool.not_eq_false] at hyd
          rcases hconn x e hxe2 with h2 | h2
          · have := htr e x _ h2 hyd
            rw [this] at hacc
            simp at hacc
          · rw [← h2] at hyd
            rw [hyd] at hacc
            simp at hacc
        · exact hall y h


theorem foldl_aggStep_eq : ∀ (l : List Allocation) (e m : Option String) (t : Rat),
    l.foldl aggStep (e, m, t)
      = (l.foldl minStep e, l.foldl maxStep m, t + (l.map (·.percentage)).sum)
  | [], e, m, t => by simp
  | a :: l, e, m, t => by
    simp only [List.foldl_cons, List.map_cons, List.sum_cons]
    rw [show aggStep (e, m, t) a = (minStep e a, maxStep m a, t + a.percentage) from rfl]
    rw [foldl_aggStep_eq l (minStep e a) (maxStep m a) (t + a.percentage)]
    rw [add_assoc]

theorem foldl_minStep_some : ∀ (l : List Allocation) (e : String),
    l.foldl minStep (some e)
      = some ((l.map (·.date)).foldl (fun acc x => if dateLt x acc then x else acc) e)
  | [], _ => rfl
  | a :: l, e => by
    simp only [List.foldl_cons, List.map_cons]
    rw [show minStep (some e) a = some (if dateLt a.date e then a.date else e) from by
      show (if dateLt a.date e then some a.date else some e)
        = some (if dateLt a.date e then a.date else e)
      by_cases h : dateLt a.date e = true
      · rw [if_pos h, if_pos h]
      · rw [if_neg h, if_neg h]]
    exact foldl_minStep_some l _

theorem foldl_maxStep_some : ∀ (l : List Allocation) (m : String),
    l.foldl maxStep (some m)
      = some ((l.map (·.date)).foldl (fun acc x => if dateLt acc x then x else acc) m)
  | [], _ => rfl
  | a :: l, m => by
    simp only [List.foldl_cons, List.map_cons]
    rw [show maxStep (some m) a = some (if dateLt m a.date then a.date else m) from by
      show (if dateLt m a.date then some a.date else some m)
        = some (if dateLt m a.date then a.date else m)
      by_cases h : dateLt m a.date = true
      · rw [if_pos h, if_pos h]
      · rw [if_neg h, if_neg h]]
    exact foldl_maxStep_some l _

theorem computeTaskAggregation_eq (rs : List ResourceWithAllocations) (h : rs ≠ []) :
    computeTaskAggregation rs
      = ⟨(rs.flatMap (·.allocations)).foldl minStep none,
         (rs.flatMap (·.allocations)).foldl maxStep none,
         ((rs.flatMap (·.allocations)).map (·.percentage)).sum⟩ := by
  unfold computeTaskAggregation
  rw [if_neg (by
    cases rs with
    | nil => exact absurd rfl h
    | cons r rs => simp)]
  rw [foldl_aggStep_eq]
  rw [zero_add]

/-- C8: the derived per-task aggregation equals the earliest allocation
date, the latest allocation date and the exact sum of percentages over all
allocations of all the task's resources (dates compared as JS compares the
date strings; percentages summed as exact rationals): the start date is an
allocation date no allocation date precedes, the end date one none
follows, the effort the full sum; computeTasksWithData recomputes exactly
this aggregation for every row; a task with resources holding 30% on
2024-01-01 and 50% on 2024-01-03 yields ⟨2024-01-01, 2024-01-03, 80⟩ and
no resources yield ⟨null, null, 0⟩. -/
theorem aggregation_correct :
    (∀ rs : List ResourceWithAllocations,
      (computeTaskAggregation rs).totalEffort
        = ((rs.flatMap (·.allocations)).map (·.percentage)).sum
      ∧ ((rs.flatMap (·.allocations)) = [] →
          (computeTaskAggregation rs).startDate = none
          ∧ (computeTaskAggregation rs).endDate = none)
      ∧ ((rs.flatMap (·.allocations)).map (·.date) ≠ [] →
          ∃ dmin dmax,
            (computeTaskAggregation rs).startDate = some dmin
            ∧ (computeTaskAggregation rs).endDate = some dmax
            ∧ dmin ∈ (rs.flatMap (·.allocations)).map (·.date)
            ∧ dmax ∈ (rs.flatMap (·.allocations)).map (·.date)
            ∧ (∀ d ∈ (rs.flatMap (·.allocations)).map (·.date), dateLt d dmin = false)
            ∧ (∀ d ∈ (rs.flatMap (·.allocations)).map (·.date), dateLt dmax d = false)))
    ∧ (∀ (ts : List Task) (res : List Resource) (als : List Allocation),
        ∀ e ∈ computeTasksWithData ts res als, e.computed = computeTaskAggregation e.resources)
    ∧ computeTaskAggregation
        [⟨⟨"r1", "t1", "A", 1, "", ""⟩, [⟨"al1", "r1", "2024-01-01", 30, "#30A14E", "", ""⟩],
          buildAllocationMap [⟨"al1", "r1", "2024-01-01", 30, "#30A14E", "", ""⟩]⟩,
         ⟨⟨"r2", "t1", "B", 2, "", ""⟩, [⟨"al2", "r2", "2024-01-03", 50, "#30A14E", "", ""⟩],
          buildAllocationMap [⟨"al2", "r2", "2024-01-03", 50, "#30A14E", "", ""⟩]⟩]
      = ⟨some "2024-01-01", some "2024-01-03", 80⟩
    ∧ computeTaskAggregation [] = ⟨none, none, 0⟩ := by
  have hconn2 : ∀ a b : String, dateLt b a = false → dateLt a b = true ∨ b = a := by
    intro a b h
    exact (dateLt_connex h).imp id Eq.symm
  refine ⟨?_, ?_, ?_, rfl⟩
  · intro rs
    cases hrs : rs with
    | nil =>
      refine ⟨rfl, fun _ => ⟨rfl, rfl⟩, ?_⟩
      intro hne
      exact absurd rfl hne
    | cons r rs2 =>
      have hne : r :: rs2 ≠ [] := by simp
      rw [computeTaskAggregation_eq _ hne]
      refine ⟨rfl, ?_, ?_⟩
      · intro hF
        rw [hF]
        exact ⟨rfl, rfl⟩
      · intro hdne
        cases hF : (r :: rs2).flatMap (·.allocations) with
        | nil =>
          rw [hF] at hdne
          exact absurd rfl hdne
        | cons a l2 =>
          have hmin : (a :: l2).foldl minStep none
              = some ((l2.map (·.date)).foldl
                  (fun acc x => if dateLt x acc then x else acc) a.date) := by
            rw [List.foldl_cons, show minStep none a = some a.date from rfl]
            exact foldl_minStep_some l2 a.date
          have hmax : (a :: l2).foldl maxStep none
              = some ((l2.map (·.date)).foldl
                  (fun acc x => if dateLt acc x then x else acc) a.date) := by
            rw [List.foldl_cons, show maxStep none a = some a.date from rfl]
            exact foldl_maxStep_some l2 a.date
          obtain ⟨m1, m2, m3⟩ := selFold_spec dateLt dateLt_irrefl
            (fun a b c h1 h2 => dateLt_trans h1 h2)
            (fun a b h => dateLt_connex h) (l2.map (·.date)) a.date
          obtain ⟨x1, x2, x3⟩ := selFold_spec (fun a b => dateLt b a)
            (fun a => dateLt_irrefl a)
            (fun a b c h1 h2 => dateLt_trans h2 h1)
            (fun a b h => by exact hconn2 a b (by exact h)) (l2.map (·.date)) a.date
          have x1c : ((l2.map (·.date)).foldl
                (fun acc x => if dateLt acc x then x else acc) a.date) = a.date
              ∨ ((l2.map (·.date)).foldl
                (fun acc x => if dateLt acc x then x else acc) a.date) ∈ l2.map (·.date) := x1
          have x2c : dateLt ((l2.map (·.date)).foldl
                (fun acc x => if dateLt acc x then x else acc) a.date) a.date = false := x2
          have x3c : ∀ x ∈ l2.map (·.date), dateLt ((l2.map (·.date)).foldl
                (fun acc x => if dateLt acc x then x else acc) a.date) x = false := x3
          refine ⟨(l2.map (·.date)).foldl (fun acc x => if dateLt x acc then x else acc) a.date,
            (l2.map (·.date)).foldl (fun acc x => if dateLt acc x then x else acc) a.date,
            ?_, ?_, ?_, ?_, ?_, ?_⟩
          · exact hmin
          · exact hmax
          · rcases m1 with h | h
            · rw [h]
              exact List.mem_cons_self _ _
            · exact List.mem_cons_of_mem _ h
          · rcases x1c with h | h
            · rw [h]
              exact List.mem_cons_self _ _
            · exact List.mem_cons_of_mem _ h
          · intro d hd
            rcases List.mem_cons.mp hd with h | h
            · rw [h]
              exact m2
            · exact m3 d h
          · intro d hd
            rcases List.mem_cons.mp hd with h | h
            · rw [h]
              exact x2c
            · exact x3c d h
  · intro ts res als e he
    have he2 := List.mem_mergeSort.mp he
    obtain ⟨t, _, ht⟩ := List.mem_map.mp he2
    rw [← ht]
  · rw [computeTaskAggregation_eq _ (by simp), TaskComputed.mk.injEq]
    refine ⟨by decide, by decide, ?_⟩
    norm_num

/-- Witness for C8: the two-resource example instantiates the nonempty
branch of the aggregation theorem. -/
theorem aggregation_correct_witness :
    (([⟨⟨"r1", "t1", "A", 1, "", ""⟩, [⟨"al1", "r1", "2024-01-01", 30, "#30A14E", "", ""⟩],
        buildAllocationMap [⟨"al1", "r1", "2024-01-01", 30, "#30A14E", "", ""⟩]⟩,
       ⟨⟨"r2", "t1", "B", 2, "", ""⟩, [⟨"al2", "r2", "2024-01-03", 50, "#30A14E", "", ""⟩],
        buildAllocationMap [⟨"al2", "r2", "2024-01-03", 50, "#30A14E", "", ""⟩]⟩]
      : List ResourceWithAllocations).flatMap (·.allocations)).map (·.date) ≠ []
    ∧ ∃ dmin dmax,
        (computeTaskAggregation
          [⟨⟨"r1", "t1", "A", 1, "", ""⟩, [⟨"al1", "r1", "2024-01-01", 30, "#30A14E", "", ""⟩],
            buildAllocationMap [⟨"al1", "r1", "2024-01-01", 30, "#30A14E", "", ""⟩]⟩,
           ⟨⟨"r2", "t1", "B", 2, "", ""⟩, [⟨"al2", "r2", "2024-01-03", 50, "#30A14E", "", ""⟩],
            buildAllocationMap [⟨"al2", "r2", "2024-01-03", 50, "#30A14E", "", ""⟩]⟩]).startDate
          = some dmin
        ∧ (computeTaskAggregation
          [⟨⟨"r1", "t1", "A", 1, "", ""⟩, [⟨"al1", "r1", "2024-01-01", 30, "#30A14E", "", ""⟩],
            buildAllocationMap [⟨"al1", "r1", "2024-01-01", 30, "#30A14E", "", ""⟩]⟩,
           ⟨⟨"r2", "t1", "B", 2, "", ""⟩, [⟨"al2", "r2", "2024-01-03", 50, "#30A14E", "", ""⟩],
            buildAllocationMap [⟨"al2", "r2", "2024-01-03", 50, "#30A14E", "", ""⟩]⟩]).endDate
          = some dmax
        ∧ dmin ∈ (([⟨⟨"r1", "t1", "A", 1, "", ""⟩,
            [⟨"al1", "r1", "2024-01-01", 30, "#30A14E", "", ""⟩],
            buildAllocationMap [⟨"al1", "r1", "2024-01-01", 30, "#30A14E", "", ""⟩]⟩,
           ⟨⟨"r2", "t1", "B", 2, "", ""⟩, [⟨"al2", "r2", "2024-01-03", 50, "#30A14E", "", ""⟩],
            buildAllocationMap [⟨"al2", "r2", "2024-01-03", 50, "#30A14E", "", ""⟩]⟩]
          : List ResourceWithAllocations).flatMap (·.allocations)).map (·.date)
        ∧ dmax ∈ (([⟨⟨"r1", "t1", "A", 1, "", ""⟩,
            [⟨"al1", "r1", "2024-01-01", 30, "#30A14E", "", ""⟩],
            buildAllocationMap [⟨"al1", "r1", "2024-01-01", 30, "#30A14E", "", ""⟩]⟩,
           ⟨⟨"r2", "t1", "B", 2, "", ""⟩, [⟨"al2", "r2", "2024-01-03", 50, "#30A14E", "", ""⟩],
            buildAllocationMap [⟨"al2", "r2", "2024-01-03", 50, "#30A14E", "", ""⟩]⟩]
          : List ResourceWithAllocations).flatMap (·.allocations)).map (·.date)
        ∧ (∀ d ∈ (([⟨⟨"r1", "t1", "A", 1, "", ""⟩,
            [⟨"al1", "r1", "2024-01-01", 30, "#30A14E", "", ""⟩],
            buildAllocationMap [⟨"al1", "r1", "2024-01-01", 30, "#30A14E", "", ""⟩]⟩,
           ⟨⟨"r2", "t1", "B", 2, "", ""⟩, [⟨"al2", "r2", "2024-01-03", 50, "#30A14E", "", ""⟩],
            buildAllocationMap [⟨"al2", "r2", "2024-01-03", 50, "#30A14E", "", ""⟩]⟩]
          : List ResourceWithAllocations).flatMap (·.allocations)).map (·.date),
            dateLt d dmin = false)
        ∧ (∀ d ∈ (([⟨⟨"r1", "t1", "A", 1, "", ""⟩,
            [⟨"al1", "r1", "2024-01-01", 30, "#30A14E", "", ""⟩],
            buildAllocationMap [⟨"al1", "r1", "2024-01-01", 30, "#30A14E", "", ""⟩]⟩,
           ⟨⟨"r2", "t1", "B", 2, "", ""⟩, [⟨"al2", "r2", "2024-01-03", 50, "#30A14E", "", ""⟩],
            buildAllocationMap [⟨"al2", "r2", "2024-01-03", 50, "#30A14E", "", ""⟩]⟩]
          : List ResourceWithAllocations).flatMap (·.allocations)).map (·.date),
            dateLt dmax d = false) :=
  ⟨by decide,
   (aggregation_correct.1
     [⟨⟨"r1", "t1", "A", 1, "", ""⟩, [⟨"al1", "r1", "2024-01-01", 30, "#30A14E", "", ""⟩],
       buildAllocationMap [⟨"al1", "r1", "2024-01-01", 30, "#30A14E", "", ""⟩]⟩,
      ⟨⟨"r2", "t1", "B", 2, "", ""⟩, [⟨"al2", "r2", "2024-01-03", 50, "#30A14E", "", ""⟩],
       buildAllocationMap [⟨"al2", "r2", "2024-01-03", 50, "#30A14E", "", ""⟩]⟩]).2.2 (by decide)⟩

end TinyPlanvas
